import Mathlib

/-!
# nlog: a shallow embedding of `src/nlog.go`

Go values are embedded as follows.

* `[]byte` and `string` are `List Byte` (`Byte = UInt8`); a string literal of the
  source is written `bytesOf "..."`.
* `int` is `Int`, taken as 64 bits wide; the one place where wrap-around can be reached
  (`wid--` in `itoa`) wraps explicitly with `wrapInt`, and `isInt` states that a value
  supplied from outside fits.
* A run-time panic (array index out of range) is `none`.
* `Output` is the run of one goroutine; the mutex is a Boolean, held or free.
-/

namespace Nlog

/-! ## Bytes and machine integers -/

abbrev Byte := UInt8

/-- The bytes of an ASCII string literal. -/
def bytesOf (s : String) : List Byte := s.toList.map (fun c => UInt8.ofNat c.toNat)

/-- Two's complement wrap-around of a Go `int` (64 bits). -/
def wrapInt (x : Int) : Int := (x + 2 ^ 63) % 2 ^ 64 - 2 ^ 63

/-- Go's conversion `byte(x)` of an `int`: the low eight bits. -/
def toByte (x : Int) : Byte := UInt8.ofNat (x % 256).toNat

/-! ## `itoa` (nlog.go, lines 217-231) -/

/-- The `for i >= 10 || wid > 1` loop of `itoa`. The state is the scratch array `b`,
the write position `bp`, and the remaining `i` and `wid`. Indexing `b[bp]` outside
`0..19` panics (`none`). The first argument bounds the number of iterations; `itoa`
passes 21, which is never exhausted before the index check fails
(see `itoaLoop_fuel`). `'0' + i - q*10` is computed in `int` and converted to
`byte`, so only its low eight bits matter and they are those of the exact value. -/
def itoaLoop : Nat → List Byte → Int → Int → Int → Option (List Byte × Int × Int)
  | 0, _, _, _, _ => none
  | fuel + 1, b, bp, i, wid =>
    if i ≥ 10 ∨ wid > 1 then
      let wid1 := wrapInt (wid - 1)
      let q := Int.tdiv i 10
      if 0 ≤ bp ∧ bp < 20 then
        itoaLoop fuel (b.set bp.toNat (toByte (48 + i - q * 10))) (bp - 1) q wid1
      else none
    else some (b, bp, i)

/-- `itoa(buf, i, wid)`: the new content of `*buf`, or `none` when the function panics. -/
def itoa (buf : List Byte) (i wid : Int) : Option (List Byte) :=
  match itoaLoop 21 (List.replicate 20 0) 19 i wid with
  | none => none
  | some (b, bp, i1) =>
    if 0 ≤ bp ∧ bp < 20 then
      some (buf ++ (b.set bp.toNat (toByte (48 + i1))).drop bp.toNat)
    else none

/-! ## The decimal rendering the specification describes -/

/-- The ASCII digit for `d`. -/
def digitByte (d : Nat) : Byte := UInt8.ofNat (48 + d)

/-- The decimal digits of `n`, most significant first; `0` has the single digit `0`. -/
def decimalDigits (n : Nat) : List Byte :=
  if n = 0 then [digitByte 0] else (Nat.digits 10 n).reverse.map digitByte

/-- The digits of `n` left-padded with `'0'` to at least `wid` bytes. -/
def padDecimal (n : Nat) (wid : Int) : List Byte :=
  List.replicate (wid.toNat - (decimalDigits n).length) (digitByte 0) ++ decimalDigits n

/-! ## Constants (nlog.go, lines 14-23): `1 << iota` for `iota = 0, 1, ...` -/

def Ldate : Int := 1 <<< (0 : Int)
def Ltime : Int := 1 <<< (1 : Int)
def Lmicroseconds : Int := 1 <<< (2 : Int)
def Llongfile : Int := 1 <<< (3 : Int)
def Lshortfile : Int := 1 <<< (4 : Int)
def LUTC : Int := 1 <<< (5 : Int)
def LstdFlags : Int := Int.lor Ldate Ltime
def DebugOn : Int := 1

/-! ## The environment: `time`, `io.Writer`, `runtime.Caller`, the file system -/

/-- What `Date`, `Clock` and `Nanosecond` return for an instant read in one location. -/
structure Civil where
  year : Int
  month : Int
  day : Int
  hour : Int
  min : Int
  sec : Int
  nsec : Int

/-- A `time.Time`: the reading in the value's own location and the reading in UTC. -/
structure Time where
  here : Civil
  utc : Civil

def Time.UTC (t : Time) : Time := { here := t.utc, utc := t.utc }

def Time.Date (t : Time) : Int × Int × Int := (t.here.year, t.here.month, t.here.day)

def Time.Clock (t : Time) : Int × Int × Int := (t.here.hour, t.here.min, t.here.sec)

def Time.Nanosecond (t : Time) : Int := t.here.nsec

/-- The ranges the `time` package guarantees for the fields other than the year. -/
def Civil.valid (c : Civil) : Prop :=
  (1 ≤ c.month ∧ c.month ≤ 12) ∧ (1 ≤ c.day ∧ c.day ≤ 31) ∧ (0 ≤ c.hour ∧ c.hour ≤ 23) ∧
  (0 ≤ c.min ∧ c.min ≤ 59) ∧ (0 ≤ c.sec ∧ c.sec ≤ 59) ∧ (0 ≤ c.nsec ∧ c.nsec ≤ 999999999)

instance (c : Civil) : Decidable c.valid := by
  unfold Civil.valid
  infer_instance

/-- Go's built-in interface type `error`; a value stands for a non-nil error. -/
abbrev error := String

/-- An `io.Writer`: the buffers handed to `Write` so far (oldest first) and the error
`Write` returns for a buffer (`none` is `nil`). -/
structure Writer where
  received : List (List Byte)
  fails : List Byte → Option error

def Writer.Write (w : Writer) (p : List Byte) : Writer × Option error :=
  ({ w with received := w.received ++ [p] }, w.fails p)

/-- The file system as `setOutputFile` sees it: the content of each path, the error
`os.OpenFile(path, O_RDWR|O_CREATE|O_APPEND, 0666)` returns, the error a write to the
opened file returns, and the paths opened so far (oldest first). -/
structure FS where
  content : List Byte → List Byte
  openErr : List Byte → Option error
  writeErr : List Byte → Option error
  opened : List (List Byte)

/-- A successful `os.OpenFile(path, ...)`. -/
def FS.openFile (fs : FS) (path : List Byte) : FS :=
  { fs with opened := fs.opened ++ [path] }

/-- Appending through the opened file; a failed write leaves the content as it was. -/
def FS.append (fs : FS) (path buf : List Byte) : FS :=
  match fs.writeErr path with
  | some _ => fs
  | none => { fs with content := fun p => if p = path then fs.content p ++ buf else fs.content p }

/-- What one call reads from outside the program: `time.Now()` and `runtime.Caller(skip)`,
the latter as `(file, line, ok)`. -/
structure Env where
  now : Time
  Caller : Int → List Byte × Int × Bool

/-- The value fits Go's 64-bit `int`. -/
def isInt (x : Int) : Prop := -2 ^ 63 ≤ x ∧ x < 2 ^ 63

instance (x : Int) : Decidable (isInt x) := by
  unfold isInt
  infer_instance

/-- Every field of the reading fits `int`. -/
def Civil.isInt (c : Civil) : Prop :=
  Nlog.isInt c.year ∧ Nlog.isInt c.month ∧ Nlog.isInt c.day ∧ Nlog.isInt c.hour ∧
  Nlog.isInt c.min ∧ Nlog.isInt c.sec ∧ Nlog.isInt c.nsec

instance (c : Civil) : Decidable c.isInt := by
  unfold Civil.isInt
  infer_instance

/-- The integers the environment supplies fit `int`. -/
def Env.isInt (env : Env) : Prop :=
  env.now.here.isInt ∧ env.now.utc.isInt ∧ ∀ skip, Nlog.isInt (env.Caller skip).2.1

/-! ## `Logging` (nlog.go, lines 28-41) -/

/-- The struct `Logging`. `mu` is `true` while the mutex is held. -/
structure Logging where
  mu : Bool
  prefix_ : List Byte
  flag : Int
  out : Writer
  buf : List Byte
  debugFlag : Int
  filePath : List Byte

/-- The struct `New` allocates: the fields not named get their zero value. -/
def New (out : Writer) (prefix_ : List Byte) (flag : Int) : Logging :=
  { mu := false, prefix_ := prefix_, flag := flag, out := out, buf := [], debugFlag := 0,
    filePath := [] }

abbrev Ptr := Nat

/-- The program state: the `*Logging` values by address, the address held by the package
variable `Logger`, and the file system. -/
structure World where
  heap : Ptr → Logging
  Logger : Ptr
  fs : FS

def World.store (w : World) (l : Ptr) (v : Logging) : World :=
  { w with heap := fun p => if p = l then v else w.heap p }

/-- How a call ends: it returns, the process exits with a status, a run-time panic
unwinds it, or the goroutine blocks for ever in `Lock` on a held mutex. -/
inductive Outcome (α : Type) where
  | ret : α → World → Outcome α
  | exit : Int → World → Outcome α
  | panic : Outcome α
  | blocked : World → Outcome α

/-! ## `formatHeader` (nlog.go, lines 170-215) -/

/-- The loop `for i := len(file) - 1; i > 0; i--` of `formatHeader`, entered at index `i`:
the value of `short` when it ends. -/
def shortLoop (file : List Byte) : Nat → List Byte
  | 0 => file
  | i + 1 => if file[i + 1]? = some 47 then file.drop (i + 1 + 1) else shortLoop file i

/-- The value of `short` after the loop. -/
def shortFile (file : List Byte) : List Byte := shortLoop file (file.length - 1)

/-- `l.formatHeader(buf, t, file, line)`: the new content of `*buf`, or `none` when a call
of `itoa` panics. -/
def formatHeader (l : Logging) (buf : List Byte) (t : Time) (file : List Byte) (line : Int) :
    Option (List Byte) := do
  let buf := buf ++ l.prefix_
  let t := if Int.land l.flag LUTC ≠ 0 then t.UTC else t
  let buf ←
    if Int.land l.flag (Int.lor (Int.lor Ldate Ltime) Lmicroseconds) ≠ 0 then do
      let buf ←
        if Int.land l.flag Ldate ≠ 0 then do
          let (year, month, day) := t.Date
          let buf ← itoa buf year 4
          let buf := buf ++ [47]
          let buf ← itoa buf month 2
          let buf := buf ++ [47]
          let buf ← itoa buf day 2
          pure (buf ++ [32])
        else pure buf
      if Int.land l.flag (Int.lor Ltime Lmicroseconds) ≠ 0 then do
        let (hour, min, sec) := t.Clock
        let buf ← itoa buf hour 2
        let buf := buf ++ [58]
        let buf ← itoa buf min 2
        let buf := buf ++ [58]
        let buf ← itoa buf sec 2
        let buf ←
          if Int.land l.flag Lmicroseconds ≠ 0 then do
            let buf := buf ++ [46]
            itoa buf (Int.tdiv t.Nanosecond 1000) 6
          else pure buf
        pure (buf ++ [32])
      else pure buf
    else pure buf
  if Int.land l.flag (Int.lor Lshortfile Llongfile) ≠ 0 then do
    let file := if Int.land l.flag Lshortfile ≠ 0 then shortFile file else file
    let buf := buf ++ file
    let buf := buf ++ [58]
    let buf ← itoa buf line (-1)
    pure (buf ++ bytesOf ": ")
  else pure buf

/-! ## `Output` and `setOutputFile` (nlog.go, lines 51-98) -/

/-- `setOutputFile(buf)`: the mirror path is read from the package variable `Logger`. A
failed open ends in `log.Fatal`, that is exit status 1 (the message it prints is not
recorded); the error of the write is dropped. -/
def setOutputFile (w : World) (buf : List Byte) : Outcome Unit :=
  let path := (w.heap w.Logger).filePath
  if path ≠ [] then
    match w.fs.openErr path with
    | some _ => .exit 1 w
    | none => .ret () { w with fs := (w.fs.openFile path).append path buf }
  else .ret () w

/-- Lines 54-68 of `Output`: `file` and `line` keep their zero values unless a file flag
is set; then they come from `runtime.Caller(calldepth)`, or are `"???"` and `0` when it
reports failure. -/
def callerInfo (env : Env) (flag : Int) (calldepth : Int) : List Byte × Int :=
  if Int.land flag (Int.lor Lshortfile Llongfile) ≠ 0 then
    let (file, line, ok) := env.Caller calldepth
    if !ok then (bytesOf "???", 0) else (file, line)
  else ([], 0)

/-- `l.Output(calldepth, s)` run by one goroutine with no other goroutine interleaved.
`Lock` on a held mutex blocks. Releasing and re-acquiring the mutex around
`runtime.Caller` leaves it held. The deferred `Unlock` runs on return and not when the
process exits. -/
def Output (env : Env) (w : World) (l : Ptr) (calldepth : Int) (s : List Byte) :
    Outcome (Option error) :=
  let now := env.now
  let l0 := w.heap l
  if l0.mu then .blocked w
  else
    let l1 := { l0 with mu := true }
    let fl := callerInfo env l1.flag calldepth
    match formatHeader l1 [] now fl.1 fl.2 with
    | none => .panic
    | some hdr =>
      let buf := hdr ++ s
      let buf := if s.length = 0 ∨ s.getLast? ≠ some 10 then buf ++ [10] else buf
      let (out, err) := l1.out.Write buf
      let w1 := w.store l { l1 with buf := buf, out := out }
      match setOutputFile w1 buf with
      | .ret _ w2 => .ret err (w2.store l { w2.heap l with mu := false })
      | .exit c w2 => .exit c w2
      | .panic => .panic
      | .blocked w2 => .blocked w2

/-! ## The package variable `Logger` and the level functions (nlog.go, lines 26, 129-159)

`fmt.Sprint` belongs to the standard library: the functions take it as the parameter
`Sprint`, for any type of operands. Every level function discards the error `Output`
returns. -/

/-- The initial value of the package variable: `New(os.Stderr, "", LstdFlags)`. -/
def initialLogger (stderr : Writer) : Logging := New stderr [] LstdFlags

/-- The method `(l *Logging).Info(v...)`: `Lock`, the deferred `Unlock`, the prefix, then
`l.Output(2, fmt.Sprint(v...))` with the mutex still held. -/
def Logging.Info {α : Type} (Sprint : List α → List Byte) (env : Env) (w : World) (l : Ptr)
    (v : List α) : Outcome Unit :=
  if (w.heap l).mu then .blocked w
  else
    let w1 := w.store l { w.heap l with mu := true }
    let w2 := w1.store l { w1.heap l with prefix_ := bytesOf "[INFOaaaaaaa]" }
    match Output env w2 l 2 (Sprint v) with
    | .ret _ w3 => .ret () (w3.store l { w3.heap l with mu := false })
    | .exit c w3 => .exit c w3
    | .panic => .panic
    | .blocked w3 => .blocked w3

/-- The function `Info(v...)`. -/
def Info {α : Type} (Sprint : List α → List Byte) (env : Env) (w : World) (v : List α) :
    Outcome Unit :=
  let w1 := w.store w.Logger { w.heap w.Logger with prefix_ := bytesOf "[INFObbbbb]" }
  match Output env w1 w1.Logger 2 (Sprint v) with
  | .ret _ w2 => .ret () w2
  | .exit c w2 => .exit c w2
  | .panic => .panic
  | .blocked w2 => .blocked w2

/-- The function `Debug(v...)`: the prefix is assigned before the gate is tested. -/
def Debug {α : Type} (Sprint : List α → List Byte) (env : Env) (w : World) (v : List α) :
    Outcome Unit :=
  let w1 := w.store w.Logger { w.heap w.Logger with prefix_ := bytesOf "[DEBUG]" }
  if (w1.heap w1.Logger).debugFlag ≠ DebugOn then .ret () w1
  else
    match Output env w1 w1.Logger 2 (Sprint v) with
    | .ret _ w2 => .ret () w2
    | .exit c w2 => .exit c w2
    | .panic => .panic
    | .blocked w2 => .blocked w2

/-- The function `Error(v...)`. -/
def Error {α : Type} (Sprint : List α → List Byte) (env : Env) (w : World) (v : List α) :
    Outcome Unit :=
  let w1 := w.store w.Logger { w.heap w.Logger with prefix_ := bytesOf "[ERROR]" }
  match Output env w1 w1.Logger 2 (Sprint v) with
  | .ret _ w2 => .ret () w2
  | .exit c w2 => .exit c w2
  | .panic => .panic
  | .blocked w2 => .blocked w2

/-- The function `Fatal(v...)`: `os.Exit(1)` once `Output` has returned. -/
def Fatal {α : Type} (Sprint : List α → List Byte) (env : Env) (w : World) (v : List α) :
    Outcome Unit :=
  let w1 := w.store w.Logger { w.heap w.Logger with prefix_ := bytesOf "[FATAL]" }
  match Output env w1 w1.Logger 2 (Sprint v) with
  | .ret _ w2 => .exit 1 w2
  | .exit c w2 => .exit c w2
  | .panic => .panic
  | .blocked w2 => .blocked w2

/-! ## Sample values -/

/-- An in-memory sink that has received nothing and never fails. -/
def memSink : Writer := { received := [], fails := fun _ => none }

/-- A file system in which every path is empty, opens and accepts writes. -/
def plainFS : FS :=
  { content := fun _ => [], openErr := fun _ => none, writeErr := fun _ => none, opened := [] }

/-- The calendar reading 2024/01/02 03:04:05. -/
def sampleCivil : Civil :=
  { year := 2024, month := 1, day := 2, hour := 3, min := 4, sec := 5, nsec := 123456789 }

def sampleTime : Time := { here := sampleCivil, utc := sampleCivil }

def sampleEnv : Env := { now := sampleTime, Caller := fun _ => (bytesOf "/src/app/main.go", 42, true) }

/-- A state in which every address holds the logger `New(memSink, "[X] ", flag)`. -/
def sampleWorld (flag : Int) : World :=
  { heap := fun _ => New memSink (bytesOf "[X] ") flag, Logger := 0, fs := plainFS }

/-- A state whose default logger, at address 0, mirrors to `app.log`; every other address
holds the logger `New(memSink, "[X] ", LstdFlags)`. -/
def mirrorWorld : World :=
  { heap := fun p =>
      if p = 0 then { New memSink [] LstdFlags with filePath := bytesOf "app.log" }
      else New memSink (bytesOf "[X] ") LstdFlags,
    Logger := 0, fs := plainFS }

/-- The sample state with the debug gate of every logger set to `DebugOn`. -/
def gateWorld : World :=
  { heap := fun _ => { New memSink (bytesOf "[X] ") LstdFlags with debugFlag := DebugOn },
    Logger := 0, fs := plainFS }

/-- A stand-in for `fmt.Sprint` on string operands: their concatenation. -/
def sampleSprint (v : List (List Byte)) : List Byte := v.flatten

/-- The line ends with two consecutive newline bytes. -/
def endsWithTwoNewlines (xs : List Byte) : Prop :=
  xs.getLast? = some 10 ∧ xs.dropLast.getLast? = some 10

instance (xs : List Byte) : Decidable (endsWithTwoNewlines xs) := by
  unfold endsWithTwoNewlines
  infer_instance

/-! ## The header segments the specification describes -/

/-- The reading `formatHeader` renders: UTC when `LUTC` is set. -/
def shownCivil (flag : Int) (t : Time) : Civil :=
  if Int.land flag LUTC ≠ 0 then t.utc else t.here

/-- `YYYY/MM/DD ` when `Ldate` is set. -/
def dateSeg (flag : Int) (c : Civil) : List Byte :=
  if Int.land flag Ldate ≠ 0 then
    padDecimal c.year.toNat 4 ++ bytesOf "/" ++ padDecimal c.month.toNat 2 ++ bytesOf "/" ++
      padDecimal c.day.toNat 2 ++ bytesOf " "
  else []

/-- `HH:MM:SS`. -/
def clockText (c : Civil) : List Byte :=
  padDecimal c.hour.toNat 2 ++ bytesOf ":" ++ padDecimal c.min.toNat 2 ++ bytesOf ":" ++
    padDecimal c.sec.toNat 2

/-- `HH:MM:SS ` when `Ltime` or `Lmicroseconds` is set, with `.uuuuuu` before the space
when `Lmicroseconds` is set. -/
def timeSeg (flag : Int) (c : Civil) : List Byte :=
  if Int.land flag Ltime ≠ 0 ∨ Int.land flag Lmicroseconds ≠ 0 then
    clockText c ++
      (if Int.land flag Lmicroseconds ≠ 0 then
        bytesOf "." ++ padDecimal (c.nsec.toNat / 1000) 6 else []) ++
      bytesOf " "
  else []

/-- `name:line: ` when `Llongfile` or `Lshortfile` is set, the line number unpadded. -/
def locSeg (flag : Int) (name : List Byte) (line : Int) : List Byte :=
  if Int.land flag Llongfile ≠ 0 ∨ Int.land flag Lshortfile ≠ 0 then
    name ++ bytesOf ":" ++ decimalDigits line.toNat ++ bytesOf ": "
  else []

/-- The last path segment: the text after the last `/`, the whole path if it has none. -/
def lastSegment (file : List Byte) : List Byte :=
  (file.reverse.takeWhile (fun c => c != 47)).reverse

/-! # Theorems -/

/-! ## Properties of the decimal rendering -/

theorem decimalDigits_of_lt (n : Nat) (h : n < 10) : decimalDigits n = [digitByte n] := by
  unfold decimalDigits
  split
  · next h0 => subst h0; rfl
  · next h0 => rw [Nat.digits_of_lt 10 n h0 h]; rfl

theorem decimalDigits_step (n : Nat) (h : 10 ≤ n) :
    decimalDigits n = decimalDigits (n / 10) ++ [digitByte (n % 10)] := by
  have hn : n ≠ 0 := by omega
  have hq : n / 10 ≠ 0 := by omega
  unfold decimalDigits
  rw [if_neg hn, if_neg hq, Nat.digits_def' (by decide) (by omega)]
  simp

theorem decimalDigits_length_pos (n : Nat) : 0 < (decimalDigits n).length := by
  by_cases h : n < 10
  · rw [decimalDigits_of_lt n h]; simp
  · rw [decimalDigits_step n (by omega)]; simp

theorem padDecimal_length (n : Nat) (wid : Int) :
    (padDecimal n wid).length = max wid.toNat (decimalDigits n).length := by
  unfold padDecimal
  simp only [List.length_append, List.length_replicate]
  omega

theorem padDecimal_base (n : Nat) (wid : Int) (hn : n < 10) (hw : wid ≤ 1) :
    padDecimal n wid = [digitByte n] := by
  unfold padDecimal
  rw [decimalDigits_of_lt n hn]
  have : wid.toNat - [digitByte n].length = 0 := by simp; omega
  rw [this]; rfl

theorem padDecimal_step (n : Nat) (wid : Int) (h : 10 ≤ n ∨ 1 < wid) :
    padDecimal n wid = padDecimal (n / 10) (wid - 1) ++ [digitByte (n % 10)] := by
  unfold padDecimal
  by_cases hn : 10 ≤ n
  · rw [decimalDigits_step n hn]
    have : wid.toNat - (decimalDigits (n / 10) ++ [digitByte (n % 10)]).length
        = (wid - 1).toNat - (decimalDigits (n / 10)).length := by
      simp only [List.length_append, List.length_singleton]; omega
    rw [this, List.append_assoc]
  · have hn1 : n < 10 := by omega
    have hw : 1 < wid := by omega
    have hq : n / 10 = 0 := by omega
    have hm : n % 10 = n := by omega
    rw [hq, hm, decimalDigits_of_lt n hn1, decimalDigits_of_lt 0 (by decide)]
    obtain ⟨k, hk⟩ : ∃ k : Nat, wid = (k : Int) + 2 := ⟨(wid - 2).toNat, by omega⟩
    subst hk
    have e1 : ((k : Int) + 2).toNat - [digitByte n].length = k + 1 := by
      simp only [List.length_singleton]; omega
    have e2 : ((k : Int) + 2 - 1).toNat - [digitByte 0].length = k := by
      simp only [List.length_singleton]; omega
    rw [e1, e2, List.replicate_succ']

/-! ## `itoa` computes the padded decimal rendering -/

theorem toByte_low_digit (n : Nat) :
    toByte (48 + (n : Int) - Int.tdiv (n : Int) 10 * 10) = digitByte (n % 10) := by
  unfold toByte digitByte
  rw [Int.tdiv_eq_ediv (by omega) (by omega)]
  congr 1
  omega

theorem toByte_digit (d : Nat) (h : d < 10) : toByte (48 + (d : Int)) = digitByte d := by
  unfold toByte digitByte
  congr 1
  omega

theorem wrapInt_of_range (x : Int) (h1 : -2 ^ 63 ≤ x) (h2 : x < 2 ^ 63) : wrapInt x = x := by
  unfold wrapInt
  omega

theorem drop_set_self (b : List Byte) (k : Nat) (a : Byte) (h : k < b.length) :
    (b.set k a).drop k = a :: b.drop (k + 1) := by
  have hk : k < (b.set k a).length := by simpa using h
  rw [List.drop_eq_getElem_cons hk, List.getElem_set_self, List.drop_set_of_lt a b (by omega)]

/-- The loop of `itoa`, started at position `k` with room for the rendering and with a
width that does not wrap around, stops with the leading digit still to be stored; once
it is stored, the array holds the padded decimal rendering in front of what it held
from position `k + 1` on. -/
theorem itoaLoop_spec (k : Nat) : ∀ (fuel : Nat) (b : List Byte) (n : Nat) (wid : Int),
    k + 1 < fuel → b.length = 20 → k < 20 → (padDecimal n wid).length ≤ k + 1 →
    -2 ^ 63 + ((decimalDigits n).length : Int) - 1 ≤ wid → wid < 2 ^ 63 →
    ∃ (b1 : List Byte) (k1 d : Nat),
      itoaLoop fuel b (k : Int) (n : Int) wid = some (b1, (k1 : Int), (d : Int)) ∧
      k1 ≤ k ∧ d < 10 ∧ b1.length = 20 ∧
      (b1.set k1 (digitByte d)).drop k1 = padDecimal n wid ++ b.drop (k + 1) := by
  induction k with
  | zero =>
    intro fuel b n wid hf hb _ hroom _ _
    rcases fuel with _ | f
    · omega
    by_cases hc : (n : Int) ≥ 10 ∨ wid > 1
    · have hs := padDecimal_step n wid (by omega)
      have hp := padDecimal_length (n / 10) (wid - 1)
      have hpos := decimalDigits_length_pos (n / 10)
      rw [hs, List.length_append, List.length_singleton] at hroom
      omega
    · refine ⟨b, 0, n, ?_, le_refl _, by omega, hb, ?_⟩
      · rw [itoaLoop, if_neg hc]
      · rw [padDecimal_base n wid (by omega) (by omega), drop_set_self b 0 _ (by omega)]
        rfl
  | succ k ih =>
    intro fuel b n wid hf hb hk hroom hwrap hw
    rcases fuel with _ | f
    · omega
    by_cases hc : (n : Int) ≥ 10 ∨ wid > 1
    · have hs := padDecimal_step n wid (by omega)
      have hlen : (decimalDigits n).length = (decimalDigits (n / 10)).length + 1
          ∨ (n < 10 ∧ 1 < wid) := by
        by_cases h10 : 10 ≤ n
        · left; rw [decimalDigits_step n h10]; simp
        · right; omega
      have hpos := decimalDigits_length_pos (n / 10)
      have hlt : (decimalDigits (n / 10)).length = 1 ∨ 10 ≤ n := by
        by_cases h10 : 10 ≤ n
        · right; exact h10
        · left
          have : n / 10 = 0 := by omega
          rw [this]; rfl
      have hwid : wrapInt (wid - 1) = wid - 1 := wrapInt_of_range _ (by omega) (by omega)
      have hrange : (0 : Int) ≤ ((k + 1 : Nat) : Int) ∧ ((k + 1 : Nat) : Int) < 20 := by omega
      have hroom1 : (padDecimal (n / 10) (wid - 1)).length ≤ k + 1 := by
        rw [hs, List.length_append, List.length_singleton] at hroom
        omega
      obtain ⟨b1, k1, d, hrun, hk1, hd, hb1, hout⟩ :=
        ih f (b.set (k + 1) (digitByte (n % 10))) (n / 10) (wid - 1) (by omega)
          (by simpa using hb) (by omega) hroom1 (by omega) (by omega)
      refine ⟨b1, k1, d, ?_, by omega, hd, hb1, ?_⟩
      · rw [itoaLoop, if_pos hc]
        simp only []
        rw [if_pos hrange, hwid, toByte_low_digit, Int.toNat_ofNat]
        have e1 : ((k + 1 : Nat) : Int) - 1 = (k : Int) := by omega
        have e2 : Int.tdiv (n : Int) 10 = ((n / 10 : Nat) : Int) := (Int.ofNat_tdiv n 10).symm
        rw [e1, e2]
        exact hrun
      · rw [hout, hs, drop_set_self b (k + 1) _ (by omega)]
        simp
    · refine ⟨b, k + 1, n, ?_, le_refl _, by omega, hb, ?_⟩
      · rw [itoaLoop, if_neg hc]
      · rw [padDecimal_base n wid (by omega) (by omega), drop_set_self b (k + 1) _ (by omega)]
        rfl

theorem decimalDigits_length_le (k : Nat) :
    ∀ n : Nat, n < 10 ^ (k + 1) → (decimalDigits n).length ≤ k + 1 := by
  induction k with
  | zero =>
    intro n hn
    rw [decimalDigits_of_lt n (by simpa using hn)]
    simp
  | succ k ih =>
    intro n hn
    by_cases h : n < 10
    · rw [decimalDigits_of_lt n h]; simp
    · rw [decimalDigits_step n (by omega), List.length_append, List.length_singleton]
      have : n / 10 < 10 ^ (k + 1) := by
        rw [Nat.div_lt_iff_lt_mul (by decide)]
        calc n < 10 ^ (k + 1 + 1) := hn
          _ = 10 ^ (k + 1) * 10 := by ring
      have := ih (n / 10) this
      omega

/-- A Go `int` that is not negative has at most 19 decimal digits. -/
theorem decimalDigits_length_int (n : Nat) (h : (n : Int) < 2 ^ 63) :
    (decimalDigits n).length ≤ 19 := by
  apply decimalDigits_length_le 18 n
  have : n < 2 ^ 63 := by exact_mod_cast h
  omega

/-- The iteration bound of `itoaLoop` plays no part in the result: every bound above
`bp + 1` gives the same outcome, because the index check fails first. -/
theorem itoaLoop_fuel (f1 : Nat) : ∀ (f2 : Nat) (b : List Byte) (bp i wid : Int),
    (bp + 1).toNat < f1 → (bp + 1).toNat < f2 →
    itoaLoop f1 b bp i wid = itoaLoop f2 b bp i wid := by
  induction f1 with
  | zero => intro f2 b bp i wid h1 _; omega
  | succ g1 ih =>
    intro f2 b bp i wid h1 h2
    rcases f2 with _ | g2
    · omega
    rw [itoaLoop, itoaLoop]
    by_cases hc : i ≥ 10 ∨ wid > 1
    · rw [if_pos hc, if_pos hc]
      simp only []
      by_cases hr : 0 ≤ bp ∧ bp < 20
      · rw [if_pos hr, if_pos hr]
        exact ih g2 _ _ _ _ (by omega) (by omega)
      · rw [if_neg hr, if_neg hr]
    · rw [if_neg hc, if_neg hc]

theorem itoa_append (buf : List Byte) (i wid : Int) :
    itoa buf i wid = (itoa [] i wid).map (fun out => buf ++ out) := by
  unfold itoa
  cases itoaLoop 21 (List.replicate 20 0) 19 i wid with
  | none => rfl
  | some r =>
    obtain ⟨b, bp, i1⟩ := r
    by_cases hr : 0 ≤ bp ∧ bp < 20
    · simp [hr]
    · simp [hr]

/-- When the rendering fits the 20-byte scratch array and the width does not wrap around,
`itoa` appends exactly the padded decimal rendering. -/
theorem itoa_eq (buf : List Byte) (n : Nat) (wid : Int)
    (hroom : (padDecimal n wid).length ≤ 20)
    (hwrap : -2 ^ 63 + ((decimalDigits n).length : Int) - 1 ≤ wid) (hw : wid < 2 ^ 63) :
    itoa buf (n : Int) wid = some (buf ++ padDecimal n wid) := by
  obtain ⟨b1, k1, d, hrun, hk1, hd, hb1, hout⟩ :=
    itoaLoop_spec 19 21 (List.replicate 20 0) n wid (by decide) (by simp) (by decide)
      hroom hwrap hw
  unfold itoa
  have h19 : ((19 : Nat) : Int) = 19 := rfl
  rw [h19] at hrun
  rw [hrun]
  have hr : (0 : Int) ≤ (k1 : Int) ∧ (k1 : Int) < 20 := by omega
  simp only []
  rw [if_pos hr, toByte_digit d hd, Int.toNat_ofNat, hout]
  simp

theorem itoa_nonneg (buf : List Byte) (i wid : Int) (h0 : 0 ≤ i) (h1 : i < 2 ^ 63)
    (hlo : -2 ^ 63 + 18 ≤ wid) (hw : wid ≤ 20) :
    itoa buf i wid = some (buf ++ padDecimal i.toNat wid) := by
  have hi : ((i.toNat : Nat) : Int) = i := Int.toNat_of_nonneg h0
  have hlen := decimalDigits_length_int i.toNat (by omega)
  have hpos := decimalDigits_length_pos i.toNat
  have h := itoa_eq buf i.toNat wid (by rw [padDecimal_length]; omega) (by omega) (by omega)
  rwa [hi] at h

/-! ## Bit tests on flags -/

theorem int_eq_zero_iff_testBit (x : Int) : x = 0 ↔ ∀ k, x.testBit k = false := by
  constructor
  · rintro rfl k
    show Nat.testBit 0 k = false
    simp
  · intro h
    cases x with
    | ofNat n =>
      have : n = 0 := Nat.zero_of_testBit_eq_false (fun k => h k)
      subst this; rfl
    | negSucc n =>
      exfalso
      have h1 := h n
      have h2 : Nat.testBit n n = false := Nat.testBit_lt_two_pow (Nat.lt_two_pow n)
      have h3 : Int.testBit (Int.negSucc n) n = !(Nat.testBit n n) := rfl
      rw [h3, h2] at h1
      exact absurd h1 (by decide)

theorem land_ne_zero_iff (f m : Int) :
    Int.land f m ≠ 0 ↔ ∃ k, f.testBit k = true ∧ m.testBit k = true := by
  rw [Ne, int_eq_zero_iff_testBit]
  push_neg
  simp [Int.testBit_land]

theorem land_lor_ne_zero_iff (f a b : Int) :
    Int.land f (Int.lor a b) ≠ 0 ↔ Int.land f a ≠ 0 ∨ Int.land f b ≠ 0 := by
  simp only [land_ne_zero_iff, Int.testBit_lor, Bool.or_eq_true, and_or_left, exists_or]

/-! ## `formatHeader` renders the segments -/

theorem shown_here (flag : Int) (t : Time) :
    (if Int.land flag LUTC ≠ 0 then t.UTC else t).here = shownCivil flag t := by
  unfold shownCivil Time.UTC
  split <;> rfl

theorem padDecimal_unpadded (n : Nat) (wid : Int) (h : wid ≤ 1) :
    padDecimal n wid = decimalDigits n := by
  unfold padDecimal
  have hpos := decimalDigits_length_pos n
  have : wid.toNat - (decimalDigits n).length = 0 := by omega
  rw [this]; rfl

/-- For a valid timestamp (needed when a date or time flag is set) and a line number that
is not negative (needed when a file flag is set), `formatHeader` appends the prefix and the
three segments, the file name being the one the source computes. -/
theorem formatHeader_eq (l : Logging) (buf : List Byte) (t : Time) (file : List Byte)
    (line : Int)
    (hv : (Int.land l.flag Ldate ≠ 0 ∨ Int.land l.flag Ltime ≠ 0 ∨
        Int.land l.flag Lmicroseconds ≠ 0) →
      (shownCivil l.flag t).valid ∧
        0 ≤ (shownCivil l.flag t).year ∧ (shownCivil l.flag t).year < 2 ^ 63)
    (hl : (Int.land l.flag Llongfile ≠ 0 ∨ Int.land l.flag Lshortfile ≠ 0) →
      0 ≤ line ∧ line < 2 ^ 63) :
    formatHeader l buf t file line =
      some (buf ++ l.prefix_ ++ dateSeg l.flag (shownCivil l.flag t) ++
        timeSeg l.flag (shownCivil l.flag t) ++
        locSeg l.flag (if Int.land l.flag Lshortfile ≠ 0 then shortFile file else file) line) := by
  have e7 : Int.land l.flag (Int.lor (Int.lor Ldate Ltime) Lmicroseconds) ≠ 0 ↔
      (Int.land l.flag Ldate ≠ 0 ∨ Int.land l.flag Ltime ≠ 0) ∨
        Int.land l.flag Lmicroseconds ≠ 0 := by
    rw [land_lor_ne_zero_iff, land_lor_ne_zero_iff]
  have e6 := land_lor_ne_zero_iff l.flag Ltime Lmicroseconds
  have e24 := land_lor_ne_zero_iff l.flag Lshortfile Llongfile
  have hun := padDecimal_unpadded line.toNat (-1) (by omega)
  have R : ∀ c : Civil, c.valid ∧ 0 ≤ c.year ∧ c.year < 2 ^ 63 →
      (∀ b, itoa b c.year 4 = some (b ++ padDecimal c.year.toNat 4)) ∧
      (∀ b, itoa b c.month 2 = some (b ++ padDecimal c.month.toNat 2)) ∧
      (∀ b, itoa b c.day 2 = some (b ++ padDecimal c.day.toNat 2)) ∧
      (∀ b, itoa b c.hour 2 = some (b ++ padDecimal c.hour.toNat 2)) ∧
      (∀ b, itoa b c.min 2 = some (b ++ padDecimal c.min.toNat 2)) ∧
      (∀ b, itoa b c.sec 2 = some (b ++ padDecimal c.sec.toNat 2)) ∧
      (∀ b, itoa b (Int.tdiv c.nsec 1000) 6 = some (b ++ padDecimal (c.nsec.toNat / 1000) 6)) := by
    rintro c ⟨⟨⟨hm1, hm2⟩, ⟨hd1, hd2⟩, ⟨hh1, hh2⟩, ⟨hmi1, hmi2⟩, ⟨hs1, hs2⟩, ⟨hn1, hn2⟩⟩, hy1, hy2⟩
    have hnd : Int.tdiv c.nsec 1000 = c.nsec / 1000 := Int.tdiv_eq_ediv hn1 (by omega)
    have hnn : (c.nsec / 1000).toNat = c.nsec.toNat / 1000 := by omega
    refine ⟨fun b => itoa_nonneg b _ _ hy1 hy2 (by omega) (by omega),
      fun b => itoa_nonneg b _ _ (by omega) (by omega) (by omega) (by omega),
      fun b => itoa_nonneg b _ _ (by omega) (by omega) (by omega) (by omega),
      fun b => itoa_nonneg b _ _ (by omega) (by omega) (by omega) (by omega),
      fun b => itoa_nonneg b _ _ (by omega) (by omega) (by omega) (by omega),
      fun b => itoa_nonneg b _ _ (by omega) (by omega) (by omega) (by omega), fun b => ?_⟩
    rw [hnd, ← hnn]
    exact itoa_nonneg b _ _ (by omega) (by omega) (by omega) (by omega)
  have Iy := fun h => (R _ (hv h)).1
  have Im := fun h => (R _ (hv h)).2.1
  have Id := fun h => (R _ (hv h)).2.2.1
  have Ih := fun h => (R _ (hv h)).2.2.2.1
  have Imi := fun h => (R _ (hv h)).2.2.2.2.1
  have Is := fun h => (R _ (hv h)).2.2.2.2.2.1
  have In := fun h => (R _ (hv h)).2.2.2.2.2.2
  have Il := fun h (b : List Byte) => itoa_nonneg b line (-1) (hl h).1 (hl h).2
    (by omega) (by omega)
  unfold formatHeader dateSeg timeSeg locSeg clockText
  simp only [e7, e6, e24, Time.Date, Time.Clock, Time.Nanosecond, shown_here]
  by_cases hD : Int.land l.flag Ldate ≠ 0 <;> by_cases hT : Int.land l.flag Ltime ≠ 0 <;>
    by_cases hM : Int.land l.flag Lmicroseconds ≠ 0 <;>
    by_cases hS : Int.land l.flag Lshortfile ≠ 0 <;>
    by_cases hL : Int.land l.flag Llongfile ≠ 0 <;>
    simp [hD, hT, hM, hS, hL, Iy, Im, Id, Ih, Imi, Is, In, Il, hun, bytesOf]

/-! ## `itoa` and `formatHeader` do not panic on the values the program passes -/

theorem tdiv_lt_of_lt (i d B : Int) (hd : 0 < d) (hB : 0 < B) (h : i < B) :
    Int.tdiv i d < B := by
  rcases le_or_lt 0 i with h0 | h0
  · rw [Int.tdiv_eq_ediv h0 (le_of_lt hd)]
    have := Int.ediv_le_self d h0
    omega
  · have h1 : Int.tdiv i d = -Int.tdiv (-i) d := by
      rw [Int.neg_tdiv, neg_neg]
    have h2 := Int.tdiv_nonneg (show 0 ≤ -i by omega) (le_of_lt hd)
    omega

/-- With a value below 10 only the width keeps the loop running, and a width of at most
`k + 1` leaves the write position inside the array. -/
theorem itoaLoop_small (k : Nat) : ∀ (fuel : Nat) (b : List Byte) (i wid : Int),
    k + 1 < fuel → k < 20 → i < 10 → wid ≤ (k : Int) + 1 →
    ∃ (b1 : List Byte) (k1 : Nat) (i1 : Int),
      itoaLoop fuel b (k : Int) i wid = some (b1, (k1 : Int), i1) ∧ k1 ≤ k := by
  induction k with
  | zero =>
    intro fuel b i wid hf _ hi hw
    rcases fuel with _ | f
    · omega
    refine ⟨b, 0, i, ?_, le_refl _⟩
    rw [itoaLoop, if_neg (by omega)]
  | succ k ih =>
    intro fuel b i wid hf hk hi hw
    rcases fuel with _ | f
    · omega
    by_cases hc : i ≥ 10 ∨ wid > 1
    · have hwid : wrapInt (wid - 1) = wid - 1 := wrapInt_of_range _ (by omega) (by omega)
      have hrange : (0 : Int) ≤ ((k + 1 : Nat) : Int) ∧ ((k + 1 : Nat) : Int) < 20 := by omega
      have hq := tdiv_lt_of_lt i 10 10 (by omega) (by omega) hi
      obtain ⟨b1, k1, i1, hrun, hk1⟩ :=
        ih f (b.set (k + 1) (toByte (48 + i - Int.tdiv i 10 * 10))) (Int.tdiv i 10) (wid - 1)
          (by omega) (by omega) hq (by omega)
      refine ⟨b1, k1, i1, ?_, by omega⟩
      rw [itoaLoop, if_pos hc]
      simp only []
      rw [if_pos hrange, hwid, Int.toNat_ofNat]
      have e1 : ((k + 1 : Nat) : Int) - 1 = (k : Int) := by omega
      rw [e1]
      exact hrun
    · refine ⟨b, k + 1, i, ?_, le_refl _⟩
      rw [itoaLoop, if_neg hc]

/-- For every `int` value and every width from `-2^63 + 18` to 20, `itoa` returns. -/
theorem itoa_isSome (buf : List Byte) (i wid : Int) (h1 : i < 2 ^ 63)
    (hlo : -2 ^ 63 + 18 ≤ wid) (hw : wid ≤ 20) : ∃ out, itoa buf i wid = some (buf ++ out) := by
  by_cases hi : i < 10
  · obtain ⟨b1, k1, i1, hrun, hk1⟩ :=
      itoaLoop_small 19 21 (List.replicate 20 0) i wid (by decide) (by decide) hi (by omega)
    have h19 : ((19 : Nat) : Int) = 19 := rfl
    rw [h19] at hrun
    have hr : (0 : Int) ≤ (k1 : Int) ∧ (k1 : Int) < 20 := by omega
    refine ⟨(b1.set (k1 : Int).toNat (toByte (48 + i1))).drop (k1 : Int).toNat, ?_⟩
    unfold itoa
    rw [hrun]
    simp only []
    rw [if_pos hr]
  · exact ⟨_, itoa_nonneg buf i wid (by omega) h1 hlo hw⟩

/-- For every timestamp and line number that fit `int`, `formatHeader` returns. -/
theorem formatHeader_isSome (l : Logging) (buf : List Byte) (t : Time) (file : List Byte)
    (line : Int) (hh : t.here.isInt) (hu : t.utc.isInt) (hl : isInt line) :
    ∃ hdr, formatHeader l buf t file line = some hdr := by
  have hc : (shownCivil l.flag t).isInt := by
    unfold shownCivil; split <;> assumption
  obtain ⟨⟨_, hy⟩, ⟨_, hm⟩, ⟨_, hd⟩, ⟨_, hho⟩, ⟨_, hmi⟩, ⟨_, hs⟩, ⟨_, hn⟩⟩ := hc
  have Y : ∀ i wid : Int, i < 2 ^ 63 → -2 ^ 63 + 18 ≤ wid → wid ≤ 20 →
      ∃ out, ∀ b, itoa b i wid = some (b ++ out) := by
    intro i wid h1 h2 h3
    obtain ⟨out, hout⟩ := itoa_isSome [] i wid h1 h2 h3
    refine ⟨out, fun b => ?_⟩
    rw [itoa_append, hout]
    rfl
  obtain ⟨oy, Iy⟩ := Y _ 4 hy (by omega) (by omega)
  obtain ⟨om, Im⟩ := Y _ 2 hm (by omega) (by omega)
  obtain ⟨od, Id⟩ := Y _ 2 hd (by omega) (by omega)
  obtain ⟨oh, Ih⟩ := Y _ 2 hho (by omega) (by omega)
  obtain ⟨omi, Imi⟩ := Y _ 2 hmi (by omega) (by omega)
  obtain ⟨os, Is⟩ := Y _ 2 hs (by omega) (by omega)
  obtain ⟨ons, Ins⟩ := Y _ 6 (tdiv_lt_of_lt _ 1000 (2 ^ 63) (by omega) (by omega) hn)
    (by omega) (by omega)
  obtain ⟨ol, Il⟩ := Y line (-1) hl.2 (by omega) (by omega)
  unfold formatHeader
  simp only [Time.Date, Time.Clock, Time.Nanosecond, shown_here]
  by_cases h7 : Int.land l.flag (Int.lor (Int.lor Ldate Ltime) Lmicroseconds) ≠ 0 <;>
    by_cases hD : Int.land l.flag Ldate ≠ 0 <;>
    by_cases h6 : Int.land l.flag (Int.lor Ltime Lmicroseconds) ≠ 0 <;>
    by_cases hM : Int.land l.flag Lmicroseconds ≠ 0 <;>
    by_cases h24 : Int.land l.flag (Int.lor Lshortfile Llongfile) ≠ 0 <;>
    simp [h7, hD, h6, hM, h24, Iy, Im, Id, Ih, Imi, Is, Ins, Il]

/-! ## The short file name -/

theorem takeWhile_append_stop (p : Byte → Bool) (a b : List Byte) (x : Byte)
    (ha : ∀ y ∈ a, p y = true) (hx : p x = false) :
    (a ++ x :: b).takeWhile p = a := by
  induction a with
  | nil => simp [List.takeWhile, hx]
  | cons y a ih =>
    have hy : p y = true := ha y (List.mem_cons_self y a)
    simp only [List.cons_append, List.takeWhile_cons, hy, if_true]
    rw [ih (fun z hz => ha z (List.mem_cons_of_mem y hz))]

theorem lastSegment_of_last_slash (file : List Byte) (k : Nat) (hk : k < file.length)
    (h47 : file[k] = 47) (hno : (47 : Byte) ∉ file.drop (k + 1)) :
    lastSegment file = file.drop (k + 1) := by
  have hsplit : file = file.take k ++ (47 : Byte) :: file.drop (k + 1) := by
    conv_lhs => rw [← List.take_append_drop k file, List.drop_eq_getElem_cons hk, h47]
  unfold lastSegment
  conv_lhs => rw [hsplit]
  rw [List.reverse_append, List.reverse_cons, List.append_assoc, List.singleton_append,
    takeWhile_append_stop _ _ _ 47 _ (by decide), List.reverse_reverse]
  intro y hy
  rw [List.mem_reverse] at hy
  have : y ≠ 47 := fun e => hno (e ▸ hy)
  simpa using this

theorem lastSegment_of_no_slash (file : List Byte) (hno : (47 : Byte) ∉ file) :
    lastSegment file = file := by
  unfold lastSegment
  have : file.reverse.takeWhile (fun c => c != 47) = file.reverse := by
    rw [List.takeWhile_eq_self_iff]
    intro y hy
    rw [List.mem_reverse] at hy
    have : y ≠ 47 := fun e => hno (e ▸ hy)
    simpa using this
  rw [this, List.reverse_reverse]

theorem shortLoop_eq (file : List Byte) : ∀ i : Nat, i < file.length →
    (47 : Byte) ∉ file.drop (i + 1) →
    shortLoop file i = if (47 : Byte) ∈ (file.take (i + 1)).tail then lastSegment file else file := by
  intro i
  induction i with
  | zero =>
    intro hi _
    have : (file.take (0 + 1)).tail = [] := by
      cases file with
      | nil => rfl
      | cons a r => simp
    rw [this]
    simp [shortLoop]
  | succ i ih =>
    intro hi hno
    have htake : file.take (i + 1 + 1) = file.take (i + 1) ++ [file[i + 1]] := by
      rw [List.take_succ, List.getElem?_eq_getElem hi]; rfl
    have hne : file.take (i + 1) ≠ [] := by
      cases file with
      | nil => simp at hi
      | cons a r => simp
    have htail : (file.take (i + 1 + 1)).tail = (file.take (i + 1)).tail ++ [file[i + 1]] := by
      rw [htake, List.tail_append_of_ne_nil hne]
    rw [shortLoop, List.getElem?_eq_getElem hi, htail]
    by_cases h47 : file[i + 1] = 47
    · rw [if_pos (by rw [h47]), if_pos (by simp [h47])]
      exact (lastSegment_of_last_slash file (i + 1) hi h47 hno).symm
    · have hno1 : (47 : Byte) ∉ file.drop (i + 1) := by
        rw [List.drop_eq_getElem_cons hi]
        intro hmem
        rcases List.mem_cons.mp hmem with e | e
        · exact h47 e.symm
        · exact hno e
      rw [if_neg (by simpa using h47), ih (by omega) hno1]
      have : (47 : Byte) ∈ (file.take (i + 1)).tail ++ [file[i + 1]] ↔
          (47 : Byte) ∈ (file.take (i + 1)).tail := by
        simp only [List.mem_append, List.mem_singleton]
        constructor
        · rintro (h | h)
          · exact h
          · exact absurd h.symm h47
        · exact Or.inl
      simp only [this]

/-- Unless the only `/` of the path is its first byte, the loop of `formatHeader` leaves
the last path segment in `short`. -/
theorem shortFile_eq_lastSegment (file : List Byte)
    (h : file.head? = some 47 → (47 : Byte) ∈ file.tail) :
    shortFile file = lastSegment file := by
  unfold shortFile
  cases file with
  | nil => rfl
  | cons a r =>
    have hlen : (a :: r).length - 1 < (a :: r).length := by simp
    have hdrop : (a :: r).drop ((a :: r).length - 1 + 1) = [] := by simp
    rw [shortLoop_eq (a :: r) _ hlen (by rw [hdrop]; simp)]
    have htake : (a :: r).take ((a :: r).length - 1 + 1) = a :: r := by simp
    rw [htake, List.tail_cons]
    by_cases hr : (47 : Byte) ∈ r
    · rw [if_pos hr]
    · rw [if_neg hr]
      have ha : a ≠ 47 := by
        intro e
        apply hr
        simpa using h (by simp [e])
      symm
      apply lastSegment_of_no_slash
      intro hmem
      rcases List.mem_cons.mp hmem with e | e
      · exact ha e.symm
      · exact hr e

/-! ## Fixed-width fields -/

theorem padDecimal_two (n : Nat) (h : n ≤ 99) :
    padDecimal n 2 = [digitByte (n / 10), digitByte (n % 10)] := by
  rw [padDecimal_step n 2 (by omega), padDecimal_base (n / 10) (2 - 1) (by omega) (by omega)]
  rfl

theorem padDecimal_four (n : Nat) (h : n ≤ 9999) :
    padDecimal n 4 = [digitByte (n / 1000), digitByte (n / 100 % 10), digitByte (n / 10 % 10),
      digitByte (n % 10)] := by
  have e1 : n / 10 / 10 = n / 100 := by omega
  have e2 : n / 10 / 10 / 10 = n / 1000 := by omega
  rw [padDecimal_step n 4 (by omega), padDecimal_step (n / 10) (4 - 1) (by omega),
    padDecimal_step (n / 10 / 10) (4 - 1 - 1) (by omega),
    padDecimal_base (n / 10 / 10 / 10) (4 - 1 - 1 - 1) (by omega) (by omega), e2, e1]
  rfl

theorem padDecimal_length_eq (n k : Nat) (hk : 0 < k) (hn : n < 10 ^ k) :
    (padDecimal n (k : Int)).length = k := by
  obtain ⟨j, rfl⟩ : ∃ j, k = j + 1 := ⟨k - 1, by omega⟩
  have h1 := decimalDigits_length_le j n hn
  rw [padDecimal_length]
  omega

/-! ## Flags that differ in the `Llongfile` bit -/

theorem testBit_Llongfile (k : Nat) : Int.testBit Llongfile k = decide (3 = k) := by
  show Nat.testBit (2 ^ 3) k = decide (3 = k)
  exact Nat.testBit_two_pow

/-- A mask without the `Llongfile` bit cannot tell whether that bit is set or cleared. -/
theorem land_set_clear_Llongfile (x m : Int) (hm : m.testBit 3 = false) :
    Int.land (Int.lor x Llongfile) m ≠ 0 ↔ Int.land (Int.ldiff x Llongfile) m ≠ 0 := by
  simp only [land_ne_zero_iff, Int.testBit_lor, Int.testBit_ldiff, testBit_Llongfile]
  constructor
  · rintro ⟨k, h1, h2⟩
    refine ⟨k, ?_, h2⟩
    by_cases hk : 3 = k
    · subst hk; rw [hm] at h2; exact absurd h2 (by decide)
    · simpa [hk] using h1
  · rintro ⟨k, h1, h2⟩
    refine ⟨k, ?_, h2⟩
    by_cases hk : 3 = k
    · subst hk; rw [hm] at h2; exact absurd h2 (by decide)
    · simpa [hk] using h1

/-- `formatHeader` reads the flags only through its seven mask tests. -/
theorem formatHeader_flag_congr (l1 l2 : Logging) (buf : List Byte) (t : Time)
    (file : List Byte) (line : Int) (hp : l1.prefix_ = l2.prefix_)
    (h1 : Int.land l1.flag LUTC ≠ 0 ↔ Int.land l2.flag LUTC ≠ 0)
    (h2 : Int.land l1.flag (Int.lor (Int.lor Ldate Ltime) Lmicroseconds) ≠ 0 ↔
      Int.land l2.flag (Int.lor (Int.lor Ldate Ltime) Lmicroseconds) ≠ 0)
    (h3 : Int.land l1.flag Ldate ≠ 0 ↔ Int.land l2.flag Ldate ≠ 0)
    (h4 : Int.land l1.flag (Int.lor Ltime Lmicroseconds) ≠ 0 ↔
      Int.land l2.flag (Int.lor Ltime Lmicroseconds) ≠ 0)
    (h5 : Int.land l1.flag Lmicroseconds ≠ 0 ↔ Int.land l2.flag Lmicroseconds ≠ 0)
    (h6 : Int.land l1.flag (Int.lor Lshortfile Llongfile) ≠ 0 ↔
      Int.land l2.flag (Int.lor Lshortfile Llongfile) ≠ 0)
    (h7 : Int.land l1.flag Lshortfile ≠ 0 ↔ Int.land l2.flag Lshortfile ≠ 0) :
    formatHeader l1 buf t file line = formatHeader l2 buf t file line := by
  unfold formatHeader
  simp only [hp, h1, h2, h3, h4, h5, h6, h7]

/-! ## `Output` -/

theorem formatHeader_mu (l : Logging) (b : Bool) (buf : List Byte) (t : Time)
    (file : List Byte) (line : Int) :
    formatHeader { l with mu := b } buf t file line = formatHeader l buf t file line :=
  formatHeader_flag_congr { l with mu := b } l buf t file line rfl Iff.rfl Iff.rfl Iff.rfl
    Iff.rfl Iff.rfl Iff.rfl Iff.rfl

theorem callerInfo_isInt (env : Env) (flag calldepth : Int) (henv : env.isInt) :
    isInt (callerInfo env flag calldepth).2 := by
  unfold callerInfo
  split
  · have h := henv.2.2 calldepth
    rcases hc : env.Caller calldepth with ⟨file, line, ok⟩
    rw [hc] at h
    cases ok
    · exact (by decide : isInt 0)
    · exact h
  · exact (by decide : isInt 0)

/-- `setOutputFile` either returns, having changed at most the file system, or exits with
status 1 leaving the state as it was. -/
theorem setOutputFile_cases (w : World) (buf : List Byte) :
    (∃ fs1, setOutputFile w buf = .ret () { w with fs := fs1 }) ∨
      setOutputFile w buf = .exit 1 w := by
  simp only [setOutputFile]
  split
  · split
    · exact Or.inr rfl
    · exact Or.inl ⟨_, rfl⟩
  · exact Or.inl ⟨w.fs, rfl⟩

/-- `Output` after its header is known: the composed line goes to the sink, then to
`setOutputFile`. -/
theorem Output_eq (env : Env) (w : World) (l : Ptr) (calldepth : Int)
    (s hdr : List Byte) (hmu : (w.heap l).mu = false)
    (hh : formatHeader (w.heap l) [] env.now (callerInfo env (w.heap l).flag calldepth).1
      (callerInfo env (w.heap l).flag calldepth).2 = some hdr)
    (line : List Byte)
    (hline : line = if s.length = 0 ∨ s.getLast? ≠ some 10 then hdr ++ s ++ [10] else hdr ++ s) :
    Output env w l calldepth s =
      match setOutputFile (w.store l { w.heap l with
          mu := true, buf := line, out := ((w.heap l).out.Write line).1 }) line with
      | .ret _ w2 => .ret ((w.heap l).out.Write line).2 (w2.store l { w2.heap l with mu := false })
      | .exit c w2 => .exit c w2
      | .panic => .panic
      | .blocked w2 => .blocked w2 := by
  unfold Output
  simp only [hmu, formatHeader_mu, hh, Bool.false_eq_true, if_false]
  rw [← hline]

/-- The line `Output` composes from the header and the message reaches the sink, whether
the call returns or the process exits in `setOutputFile`. -/
theorem output_received (env : Env) (w : World) (l : Ptr) (calldepth : Int)
    (s hdr : List Byte) (hmu : (w.heap l).mu = false)
    (hh : formatHeader (w.heap l) [] env.now (callerInfo env (w.heap l).flag calldepth).1
      (callerInfo env (w.heap l).flag calldepth).2 = some hdr) :
    ∃ w1, ((∃ e, Output env w l calldepth s = .ret e w1) ∨
        Output env w l calldepth s = .exit 1 w1) ∧
      (w1.heap l).out.received = (w.heap l).out.received ++
        [if s.length = 0 ∨ s.getLast? ≠ some 10 then hdr ++ s ++ [10] else hdr ++ s] := by
  rw [Output_eq env w l calldepth s hdr hmu hh _ rfl]
  rcases setOutputFile_cases (w.store l { w.heap l with
      mu := true
      buf := (if s.length = 0 ∨ s.getLast? ≠ some 10 then hdr ++ s ++ [10] else hdr ++ s)
      out := ((w.heap l).out.Write
        (if s.length = 0 ∨ s.getLast? ≠ some 10 then hdr ++ s ++ [10] else hdr ++ s)).1 })
      (if s.length = 0 ∨ s.getLast? ≠ some 10 then hdr ++ s ++ [10] else hdr ++ s)
    with ⟨fs1, h⟩ | h
  · rw [h]
    refine ⟨_, Or.inl ⟨_, rfl⟩, ?_⟩
    simp [World.store, Writer.Write]
  · rw [h]
    refine ⟨_, Or.inr rfl, ?_⟩
    simp [World.store, Writer.Write]

/-- When the mirror path is empty or the mirror file opens, `setOutputFile` returns. -/
theorem setOutputFile_ret (w : World) (buf : List Byte)
    (h : (w.heap w.Logger).filePath = [] ∨ w.fs.openErr (w.heap w.Logger).filePath = none) :
    ∃ fs1, setOutputFile w buf = .ret () { w with fs := fs1 } := by
  simp only [setOutputFile]
  split
  · next hp =>
    rcases h with h | h
    · exact absurd h hp
    · rw [h]; exact ⟨_, rfl⟩
  · exact ⟨w.fs, rfl⟩

/-- The last byte of the composed line, and when it ends with two newlines. -/
theorem line_newlines (hdr s : List Byte) :
    (if s.length = 0 ∨ s.getLast? ≠ some 10 then hdr ++ s ++ [10] else hdr ++ s).getLast?
        = some 10 ∧
    (endsWithTwoNewlines
        (if s.length = 0 ∨ s.getLast? ≠ some 10 then hdr ++ s ++ [10] else hdr ++ s) ↔
      endsWithTwoNewlines s ∨ ((s = [] ∨ s = [10]) ∧ hdr.getLast? = some 10)) := by
  rcases List.eq_nil_or_concat s with rfl | ⟨r, c, rfl⟩
  · simp [endsWithTwoNewlines]
  · by_cases hc : c = 10
    · subst hc
      rcases List.eq_nil_or_concat r with rfl | ⟨q, d, rfl⟩
      · simp [endsWithTwoNewlines]
      · simp [endsWithTwoNewlines, ← List.append_assoc]
    · have hne : r ++ [c] ≠ [10] := by
        intro h
        have h1 := congrArg List.getLast? h
        simp at h1
        exact hc h1
      simp [endsWithTwoNewlines, hc, hne, ← List.append_assoc]

/-- The header of a logger with prefix `[X] ` and flags `Ldate|Ltime` at
2024/01/02 03:04:05. -/
theorem header_std (l : Logging) (t : Time) (file : List Byte) (line ns : Int)
    (hp : l.prefix_ = bytesOf "[X] ") (hf : l.flag = Int.lor Ldate Ltime)
    (ht : t.here = Civil.mk 2024 1 2 3 4 5 ns)
    (hns : 0 ≤ ns ∧ ns ≤ 999999999) :
    formatHeader l [] t file line = some (bytesOf "[X] 2024/01/02 03:04:05 ") := by
  have hc : shownCivil l.flag t = t.here := by
    rw [hf]; unfold shownCivil; rw [if_neg (by decide)]
  have hv : t.here.valid := by
    rw [ht]; unfold Civil.valid
    simp only []
    omega
  rw [formatHeader_eq l [] t file line
    (fun _ => by rw [hc]; refine ⟨hv, ?_, ?_⟩ <;> rw [ht] <;> simp only [] <;> omega)
    (fun h => by rw [hf] at h; exact absurd h (by decide)), hc, hp, hf, ht]
  have d1 : ∀ c, dateSeg (Int.lor Ldate Ltime) c = padDecimal c.year.toNat 4 ++ bytesOf "/" ++
      padDecimal c.month.toNat 2 ++ bytesOf "/" ++ padDecimal c.day.toNat 2 ++ bytesOf " " := by
    intro c; unfold dateSeg; rw [if_pos (by decide)]
  have d2 : ∀ c, timeSeg (Int.lor Ldate Ltime) c = clockText c ++ [] ++ bytesOf " " := by
    intro c; unfold timeSeg; rw [if_pos (by decide), if_neg (by decide)]
  have d3 : ∀ name, locSeg (Int.lor Ldate Ltime) name line = [] := by
    intro name; unfold locSeg; rw [if_neg (by decide)]
  rw [d1, d2, d3]
  unfold clockText
  simp only []
  rw [padDecimal_four _ (by decide), padDecimal_two _ (by decide), padDecimal_two _ (by decide),
    padDecimal_two _ (by decide), padDecimal_two _ (by decide), padDecimal_two _ (by decide)]
  decide

/-! ## The outcome of `Output` in full -/

/-- For a timestamp and a line number that fit `int`, what `formatHeader` appends after
the prefix depends on the flags, the timestamp, the file and the line only. -/
theorem formatHeader_shape (flag : Int) (t : Time) (file : List Byte) (line : Int)
    (hh : t.here.isInt) (hu : t.utc.isInt) (hl : isInt line) :
    ∃ segs, ∀ (l : Logging) (buf : List Byte), l.flag = flag →
      formatHeader l buf t file line = some (buf ++ l.prefix_ ++ segs) := by
  have hc : (shownCivil flag t).isInt := by
    unfold shownCivil; split <;> assumption
  obtain ⟨⟨_, hy⟩, ⟨_, hm⟩, ⟨_, hd⟩, ⟨_, hho⟩, ⟨_, hmi⟩, ⟨_, hs⟩, ⟨_, hn⟩⟩ := hc
  have Y : ∀ i wid : Int, i < 2 ^ 63 → -2 ^ 63 + 18 ≤ wid → wid ≤ 20 →
      ∃ out, ∀ b, itoa b i wid = some (b ++ out) := by
    intro i wid h1 h2 h3
    obtain ⟨out, hout⟩ := itoa_isSome [] i wid h1 h2 h3
    refine ⟨out, fun b => ?_⟩
    rw [itoa_append, hout]
    rfl
  obtain ⟨oy, Iy⟩ := Y _ 4 hy (by omega) (by omega)
  obtain ⟨om, Im⟩ := Y _ 2 hm (by omega) (by omega)
  obtain ⟨od, Id⟩ := Y _ 2 hd (by omega) (by omega)
  obtain ⟨oh, Ih⟩ := Y _ 2 hho (by omega) (by omega)
  obtain ⟨omi, Imi⟩ := Y _ 2 hmi (by omega) (by omega)
  obtain ⟨os, Is⟩ := Y _ 2 hs (by omega) (by omega)
  obtain ⟨ons, Ins⟩ := Y _ 6 (tdiv_lt_of_lt _ 1000 (2 ^ 63) (by omega) (by omega) hn)
    (by omega) (by omega)
  obtain ⟨ol, Il⟩ := Y line (-1) hl.2 (by omega) (by omega)
  refine ⟨(if Int.land flag (Int.lor (Int.lor Ldate Ltime) Lmicroseconds) ≠ 0 then
      (if Int.land flag Ldate ≠ 0 then oy ++ [47] ++ om ++ [47] ++ od ++ [32] else []) ++
      (if Int.land flag (Int.lor Ltime Lmicroseconds) ≠ 0 then
        oh ++ [58] ++ omi ++ [58] ++ os ++
          (if Int.land flag Lmicroseconds ≠ 0 then [46] ++ ons else []) ++ [32]
       else [])
     else []) ++
    (if Int.land flag (Int.lor Lshortfile Llongfile) ≠ 0 then
      (if Int.land flag Lshortfile ≠ 0 then shortFile file else file) ++ [58] ++ ol ++ [58, 32]
     else []), ?_⟩
  intro l buf hf
  subst hf
  unfold formatHeader
  simp only [Time.Date, Time.Clock, Time.Nanosecond, shown_here]
  by_cases h7 : Int.land l.flag (Int.lor (Int.lor Ldate Ltime) Lmicroseconds) ≠ 0 <;>
    by_cases hD : Int.land l.flag Ldate ≠ 0 <;>
    by_cases h6 : Int.land l.flag (Int.lor Ltime Lmicroseconds) ≠ 0 <;>
    by_cases hM : Int.land l.flag Lmicroseconds ≠ 0 <;>
    by_cases h24 : Int.land l.flag (Int.lor Lshortfile Llongfile) ≠ 0 <;>
    by_cases hS : Int.land l.flag Lshortfile ≠ 0 <;>
    simp [h7, hD, h6, hM, h24, hS, Iy, Im, Id, Ih, Imi, Is, Ins, Il, bytesOf]

/-- Storing into `l` a struct with the `filePath` that `l` already has leaves the mirror
path of the package variable as it was. -/
theorem store_filePath (w : World) (l : Ptr) (v : Logging)
    (hv : v.filePath = (w.heap l).filePath) :
    ((w.store l v).heap (w.store l v).Logger).filePath = (w.heap w.Logger).filePath := by
  unfold World.store
  by_cases hq : w.Logger = l
  · simp [hq, hv]
  · simp [hq]

/-- The state `Output` leaves when it returns. -/
theorem Output_ret_eq (env : Env) (w : World) (l : Ptr) (calldepth : Int)
    (s hdr line : List Byte) (hmu : (w.heap l).mu = false)
    (hh : formatHeader (w.heap l) [] env.now (callerInfo env (w.heap l).flag calldepth).1
      (callerInfo env (w.heap l).flag calldepth).2 = some hdr)
    (hline : line = if s.length = 0 ∨ s.getLast? ≠ some 10 then hdr ++ s ++ [10] else hdr ++ s)
    (hm : (w.heap w.Logger).filePath = [] ∨
      w.fs.openErr (w.heap w.Logger).filePath = none) :
    Output env w l calldepth s = .ret ((w.heap l).out.fails line)
      { heap := fun p => if p = l then
          { w.heap l with
            mu := false, buf := line,
            out := { (w.heap l).out with received := (w.heap l).out.received ++ [line] } }
          else w.heap p,
        Logger := w.Logger,
        fs := if (w.heap w.Logger).filePath = [] then w.fs
          else (w.fs.openFile (w.heap w.Logger).filePath).append (w.heap w.Logger).filePath
            line } := by
  rw [Output_eq env w l calldepth s hdr hmu hh line hline]
  have hpath := store_filePath w l { w.heap l with
    mu := true, buf := line, out := ((w.heap l).out.Write line).1 } rfl
  simp only [setOutputFile, hpath]
  by_cases hp : (w.heap w.Logger).filePath = []
  · simp only [hp, ne_eq, not_true_eq_false, if_false, if_true]
    congr 1
    simp only [World.store, Writer.Write]
    congr 1
    funext p
    by_cases hpl : p = l <;> simp [hpl]
  · have ho : w.fs.openErr (w.heap w.Logger).filePath = none := by
      rcases hm with h | h
      · exact absurd h hp
      · exact h
    have ho1 : (w.store l { w.heap l with
        mu := true, buf := line, out := ((w.heap l).out.Write line).1 }).fs.openErr
          (w.heap w.Logger).filePath = none := ho
    simp only [hp, ne_eq, not_false_eq_true, if_true, if_false, ho1]
    congr 1
    simp only [World.store, Writer.Write]
    congr 1
    funext p
    by_cases hpl : p = l <;> simp [hpl]

/-- When the mirror file does not open, the process exits with status 1 after the line
has gone to the sink; the mutex stays held and the file system is as before. -/
theorem Output_exit_eq (env : Env) (w : World) (l : Ptr) (calldepth : Int)
    (s hdr line : List Byte) (e : error) (hmu : (w.heap l).mu = false)
    (hh : formatHeader (w.heap l) [] env.now (callerInfo env (w.heap l).flag calldepth).1
      (callerInfo env (w.heap l).flag calldepth).2 = some hdr)
    (hline : line = if s.length = 0 ∨ s.getLast? ≠ some 10 then hdr ++ s ++ [10] else hdr ++ s)
    (hp : (w.heap w.Logger).filePath ≠ [])
    (ho : w.fs.openErr (w.heap w.Logger).filePath = some e) :
    Output env w l calldepth s = .exit 1
      (w.store l { w.heap l with
        mu := true, buf := line,
        out := { (w.heap l).out with received := (w.heap l).out.received ++ [line] } }) := by
  rw [Output_eq env w l calldepth s hdr hmu hh line hline]
  have hpath := store_filePath w l { w.heap l with
    mu := true, buf := line, out := ((w.heap l).out.Write line).1 } rfl
  have ho1 : (w.store l { w.heap l with
      mu := true, buf := line, out := ((w.heap l).out.Write line).1 }).fs.openErr
        (w.heap w.Logger).filePath = some e := ho
  simp only [setOutputFile, hpath, hp, ne_eq, not_false_eq_true, if_true, ho1]
  rfl

/-- `formatHeader` reads the prefix and the flags of the logger and nothing else. -/
theorem formatHeader_fields_congr (l1 l2 : Logging) (buf : List Byte) (t : Time)
    (file : List Byte) (line : Int) (hp : l1.prefix_ = l2.prefix_) (hf : l1.flag = l2.flag) :
    formatHeader l1 buf t file line = formatHeader l2 buf t file line :=
  formatHeader_flag_congr l1 l2 buf t file line hp (by rw [hf]) (by rw [hf]) (by rw [hf])
    (by rw [hf]) (by rw [hf]) (by rw [hf]) (by rw [hf])

/-- Once the header is known `Output` either returns the error of the sink or exits with
status 1 (the mirror file did not open); either way the line is in the sink and in the
scratch buffer, and no other logger has changed. -/
theorem output_state (env : Env) (w : World) (l : Ptr) (calldepth : Int)
    (s hdr line : List Byte) (hmu : (w.heap l).mu = false)
    (hh : formatHeader (w.heap l) [] env.now (callerInfo env (w.heap l).flag calldepth).1
      (callerInfo env (w.heap l).flag calldepth).2 = some hdr)
    (hline : line = if s.length = 0 ∨ s.getLast? ≠ some 10 then hdr ++ s ++ [10] else hdr ++ s) :
    ∃ w1 m, ((Output env w l calldepth s = .ret ((w.heap l).out.fails line) w1 ∧ m = false) ∨
        (Output env w l calldepth s = .exit 1 w1 ∧ m = true)) ∧
      w1.heap l = { w.heap l with
        mu := m, buf := line,
        out := { (w.heap l).out with received := (w.heap l).out.received ++ [line] } } ∧
      w1.Logger = w.Logger ∧ (∀ p, p ≠ l → w1.heap p = w.heap p) := by
  by_cases hp : (w.heap w.Logger).filePath = []
  · refine ⟨_, false, Or.inl ⟨Output_ret_eq env w l calldepth s hdr line hmu hh hline
      (Or.inl hp), rfl⟩, ?_, rfl, ?_⟩
    · simp
    · intro p hpl; simp [hpl]
  · cases ho : w.fs.openErr (w.heap w.Logger).filePath with
    | none =>
      refine ⟨_, false, Or.inl ⟨Output_ret_eq env w l calldepth s hdr line hmu hh hline
        (Or.inr ho), rfl⟩, ?_, rfl, ?_⟩
      · simp
      · intro p hpl; simp [hpl]
    | some e =>
      refine ⟨_, true, Or.inr ⟨Output_exit_eq env w l calldepth s hdr line e hmu hh hline
        hp ho, rfl⟩, ?_, rfl, ?_⟩
      · simp [World.store]
      · intro p hpl; simp [World.store, hpl]

/-- What a level function does after it has assigned the prefix `tag` to the default
logger: `Output` hands `tag`, the header segments, the message and the newline to the sink,
then returns or exits with status 1. -/
theorem level_emit (env : Env) (w : World) (tag s segs : List Byte)
    (hmu : (w.heap w.Logger).mu = false)
    (hshape : ∀ (l : Logging) (buf : List Byte), l.flag = (w.heap w.Logger).flag →
      formatHeader l buf env.now (callerInfo env (w.heap w.Logger).flag 2).1
        (callerInfo env (w.heap w.Logger).flag 2).2 = some (buf ++ l.prefix_ ++ segs)) :
    ∃ w1 m,
      ((∃ e, Output env (w.store w.Logger { w.heap w.Logger with prefix_ := tag })
            (w.store w.Logger { w.heap w.Logger with prefix_ := tag }).Logger 2 s = .ret e w1 ∧
          m = false) ∨
        (Output env (w.store w.Logger { w.heap w.Logger with prefix_ := tag })
            (w.store w.Logger { w.heap w.Logger with prefix_ := tag }).Logger 2 s = .exit 1 w1 ∧
          m = true)) ∧
      w1.heap w.Logger = { w.heap w.Logger with
        prefix_ := tag, mu := m,
        buf := (if s.length = 0 ∨ s.getLast? ≠ some 10 then tag ++ segs ++ s ++ [10]
          else tag ++ segs ++ s),
        out := { (w.heap w.Logger).out with
          received := (w.heap w.Logger).out.received ++
            [if s.length = 0 ∨ s.getLast? ≠ some 10 then tag ++ segs ++ s ++ [10]
              else tag ++ segs ++ s] } } ∧
      w1.Logger = w.Logger ∧ (∀ p, p ≠ w.Logger → w1.heap p = w.heap p) := by
  have e0 : (w.store w.Logger { w.heap w.Logger with prefix_ := tag }).heap w.Logger
      = { w.heap w.Logger with prefix_ := tag } := by
    simp [World.store]
  have hh0 : formatHeader ((w.store w.Logger { w.heap w.Logger with prefix_ := tag }).heap
        w.Logger) [] env.now
      (callerInfo env ((w.store w.Logger { w.heap w.Logger with prefix_ := tag }).heap
        w.Logger).flag 2).1
      (callerInfo env ((w.store w.Logger { w.heap w.Logger with prefix_ := tag }).heap
        w.Logger).flag 2).2 = some (tag ++ segs) := by
    rw [e0]
    have h := hshape { w.heap w.Logger with prefix_ := tag } [] rfl
    simpa using h
  obtain ⟨w1, m, hout, hheap, hlog, hrest⟩ :=
    output_state env (w.store w.Logger { w.heap w.Logger with prefix_ := tag }) w.Logger 2 s
      (tag ++ segs) _ (by rw [e0]; exact hmu) hh0 rfl
  refine ⟨w1, m, ?_, ?_, hlog, ?_⟩
  · rcases hout with ⟨h, hm⟩ | ⟨h, hm⟩
    · exact Or.inl ⟨_, h, hm⟩
    · exact Or.inr ⟨h, hm⟩
  · rw [hheap, e0]
  · intro p hp
    rw [hrest p hp]
    simp [World.store, hp]

/-- A width of at least `k + 2` keeps the loop of `itoa` running from position `k` until
the write position is below 0: the loop then either fails at its next index or stops
with a negative position. -/
theorem itoaLoop_overrun (k : Nat) : ∀ (fuel : Nat) (b : List Byte) (i wid : Int),
    k + 1 < fuel → k < 20 → (k : Int) + 2 ≤ wid → wid < 2 ^ 63 →
    ∀ r, itoaLoop fuel b (k : Int) i wid = some r → r.2.1 < 0 := by
  induction k with
  | zero =>
    intro fuel b i wid hf _ hw hw2 r hr
    obtain ⟨g, rfl⟩ : ∃ g, fuel = g + 1 + 1 := ⟨fuel - 2, by omega⟩
    have hc : i ≥ 10 ∨ wid > 1 := Or.inr (by omega)
    have hwid : wrapInt (wid - 1) = wid - 1 := wrapInt_of_range _ (by omega) (by omega)
    have hrange : (0 : Int) ≤ ((0 : Nat) : Int) ∧ ((0 : Nat) : Int) < 20 := by omega
    rw [itoaLoop, if_pos hc] at hr
    simp only [] at hr
    rw [if_pos hrange, hwid, itoaLoop] at hr
    by_cases hc2 : Int.tdiv i 10 ≥ 10 ∨ wid - 1 > 1
    · rw [if_pos hc2] at hr
      simp only [] at hr
      rw [if_neg (by omega)] at hr
      cases hr
    · rw [if_neg hc2] at hr
      cases hr
      show ((0 : Nat) : Int) - 1 < 0
      omega
  | succ k ih =>
    intro fuel b i wid hf hk hw hw2 r hr
    obtain ⟨g, rfl⟩ : ∃ g, fuel = g + 1 := ⟨fuel - 1, by omega⟩
    have hc : i ≥ 10 ∨ wid > 1 := Or.inr (by omega)
    have hwid : wrapInt (wid - 1) = wid - 1 := wrapInt_of_range _ (by omega) (by omega)
    have hrange : (0 : Int) ≤ ((k + 1 : Nat) : Int) ∧ ((k + 1 : Nat) : Int) < 20 := by omega
    rw [itoaLoop, if_pos hc] at hr
    simp only [] at hr
    rw [if_pos hrange, hwid] at hr
    have e1 : ((k + 1 : Nat) : Int) - 1 = (k : Int) := by omega
    rw [e1] at hr
    exact ih g _ _ _ (by omega) (by omega) (by omega) (by omega) r hr

/-- For every width from 21 on, `itoa` fails at an index of its scratch array. -/
theorem itoa_wide_panics (buf : List Byte) (i wid : Int) (hw : 21 ≤ wid) (hw2 : wid < 2 ^ 63) :
    itoa buf i wid = none := by
  have h := itoaLoop_overrun 19 21 (List.replicate 20 0) i wid (by decide) (by decide)
    (by omega) hw2
  have h19 : ((19 : Nat) : Int) = 19 := rfl
  rw [h19] at h
  unfold itoa
  cases hr : itoaLoop 21 (List.replicate 20 0) 19 i wid with
  | none => rfl
  | some r =>
    obtain ⟨b, bp, i1⟩ := r
    have hneg : bp < 0 := h _ hr
    simp only []
    rw [if_neg (by omega)]

/-! ## Claims about `itoa` -/

/-- C1 (as stated it fails): with `i = 10` and `wid = -2^63`, both inside the claim's
range, `wid--` wraps around to `2^63 - 1`, the loop runs until `bp` is `-1`, and `itoa`
panics instead of appending `10`. -/
theorem C1_counterexample :
    (0 : Int) ≤ 10 ∧ (-9223372036854775808 : Int) ≤ 20 ∧
      itoa [] 10 (-9223372036854775808) = none := by
  decide

/-- C1 (amended): for every `int` `i` with `0 ≤ i < 2^63` and every width `wid ≤ 20` that
does not wrap around while the digits are produced (`-2^63 + digits(i) - 1 ≤ wid`), `itoa`
keeps the bytes of `buf` and appends exactly the decimal digits of `i`, most significant
first, left-padded with `'0'` to length `max(wid, digits(i))`; for `wid ≤ 1` there is no
padding. `itoa(5, 2)` appends `05`, `itoa(0, 4)` appends `0000`, `itoa(123, -1)` appends
`123`. -/
theorem C1_itoa_padded_decimal (buf : List Byte) (i wid : Int) (h0 : 0 ≤ i)
    (h1 : i < 2 ^ 63) (hlo : -2 ^ 63 + ((decimalDigits i.toNat).length : Int) - 1 ≤ wid)
    (hw : wid ≤ 20) :
    itoa buf i wid = some (buf ++ padDecimal i.toNat wid) ∧
    (padDecimal i.toNat wid).length = max wid.toNat (decimalDigits i.toNat).length ∧
    (wid ≤ 1 → padDecimal i.toNat wid = decimalDigits i.toNat) ∧
    itoa buf 5 2 = some (buf ++ bytesOf "05") ∧
    itoa buf 0 4 = some (buf ++ bytesOf "0000") ∧
    itoa buf 123 (-1) = some (buf ++ bytesOf "123") := by
  have hi : ((i.toNat : Nat) : Int) = i := Int.toNat_of_nonneg h0
  have hlen := decimalDigits_length_int i.toNat (by omega)
  have hmain := itoa_eq buf i.toNat wid (by rw [padDecimal_length]; omega) (by omega) (by omega)
  rw [hi] at hmain
  refine ⟨hmain, padDecimal_length _ _, padDecimal_unpadded _ _, ?_, ?_, ?_⟩
  · rw [itoa_append]
    have : itoa [] 5 2 = some (bytesOf "05") := by decide
    rw [this]; rfl
  · rw [itoa_append]
    have : itoa [] 0 4 = some (bytesOf "0000") := by decide
    rw [this]; rfl
  · rw [itoa_append]
    have : itoa [] 123 (-1) = some (bytesOf "123") := by decide
    rw [this]; rfl

/-- C1 witness: `itoa` on `i = 2024`, `wid = 6` after the bytes `log `. -/
theorem C1_itoa_padded_decimal_witness :
    itoa (bytesOf "log ") 2024 6 = some (bytesOf "log " ++ padDecimal (2024 : Int).toNat 6) :=
  (C1_itoa_padded_decimal (bytesOf "log ") 2024 6 (by decide) (by decide)
    (by have := decimalDigits_length_int (2024 : Int).toNat (by decide); omega)
    (by decide)).1

/-! ## Claims about `formatHeader` -/

/-- C2 (as stated it fails): with `Lshortfile` set and the file `a/b.go`, the location
segment is `b.go:1: `, not `file ++ ":" ++ line ++ ": "`, which is `a/b.go:1: `. -/
theorem C2_counterexample :
    formatHeader (New memSink [] Lshortfile) [] sampleTime (bytesOf "a/b.go") 1
        = some (bytesOf "b.go:1: ") ∧
      ([] ++ (New memSink [] Lshortfile).prefix_ ++ dateSeg Lshortfile sampleCivil ++
        timeSeg Lshortfile sampleCivil ++ locSeg Lshortfile (bytesOf "a/b.go") 1)
        = bytesOf "a/b.go:1: " ∧
      bytesOf "b.go:1: " ≠ bytesOf "a/b.go:1: " := by
  refine ⟨by decide, ?_, by decide⟩
  have h1 : decimalDigits (1 : Int).toNat = [digitByte 1] := decimalDigits_of_lt 1 (by decide)
  unfold locSeg
  rw [h1]
  decide

/-- C2 (amended): for every prefix, flag value, file, initial buffer, line with
`0 ≤ line < 2^63` and every timestamp whose rendered reading (UTC when `LUTC` is set) is
valid with a year in `0..9999`, `formatHeader` appends to the buffer exactly
`prefix ++ dateSeg ++ timeSeg ++ locSeg`: `dateSeg` is `YYYY/MM/DD ` if `Ldate` is set,
`timeSeg` is `HH:MM:SS ` (with `.uuuuuu` before the space when `Lmicroseconds` is set) if
`Ltime` or `Lmicroseconds` is set, and `locSeg` is `name:line: ` if `Llongfile` or
`Lshortfile` is set, where `name` is `file` without `Lshortfile` and the last path segment
of `file` with it (for a path whose only `/` is not its first byte). The prior buffer
content is a prefix of the result. -/
theorem C2_formatHeader_segments (l : Logging) (buf : List Byte) (t : Time)
    (file : List Byte) (line : Int) (hv : (shownCivil l.flag t).valid)
    (hy : 0 ≤ (shownCivil l.flag t).year ∧ (shownCivil l.flag t).year ≤ 9999)
    (hl : 0 ≤ line ∧ line < 2 ^ 63)
    (hs : Int.land l.flag Lshortfile ≠ 0 → file.head? = some 47 → (47 : Byte) ∈ file.tail) :
    formatHeader l buf t file line =
      some (buf ++ (l.prefix_ ++ dateSeg l.flag (shownCivil l.flag t) ++
        timeSeg l.flag (shownCivil l.flag t) ++
        locSeg l.flag (if Int.land l.flag Lshortfile ≠ 0 then lastSegment file else file)
          line)) := by
  rw [formatHeader_eq l buf t file line (fun _ => ⟨hv, hy.1, by omega⟩) (fun _ => hl)]
  by_cases hS : Int.land l.flag Lshortfile ≠ 0
  · rw [if_pos hS, if_pos hS, shortFile_eq_lastSegment file (hs hS)]
    simp only [List.append_assoc]
  · rw [if_neg hS, if_neg hS]
    simp only [List.append_assoc]

/-- C2 witness: all flags set but `LUTC`, the file `/src/app/main.go`, line 42. -/
theorem C2_formatHeader_segments_witness :
    formatHeader (New memSink (bytesOf "[X] ") 31) (bytesOf ">") sampleTime
        (bytesOf "/src/app/main.go") 42 =
      some (bytesOf ">" ++ ((New memSink (bytesOf "[X] ") 31).prefix_ ++
        dateSeg 31 (shownCivil 31 sampleTime) ++ timeSeg 31 (shownCivil 31 sampleTime) ++
        locSeg 31 (if Int.land 31 Lshortfile ≠ 0 then lastSegment (bytesOf "/src/app/main.go")
          else bytesOf "/src/app/main.go") 42)) :=
  C2_formatHeader_segments (New memSink (bytesOf "[X] ") 31) (bytesOf ">") sampleTime
    (bytesOf "/src/app/main.go") 42 (by decide) (by decide) (by decide)
    (fun _ _ => by decide)

/-- C6: with an empty prefix and flags equal to exactly `Ldate`, for every valid timestamp
with a year in `0..9999`, `formatHeader` renders exactly the 11 bytes `YYYY/MM/DD `:
four year digits, `/`, two month digits, `/`, two day digits and one space, with no time
or location segment; for 2024-03-07 the result is `2024/03/07 `. -/
theorem C6_date_only (l : Logging) (t : Time) (file : List Byte) (line : Int)
    (hp : l.prefix_ = []) (hf : l.flag = Ldate) (hv : t.here.valid)
    (hy : 0 ≤ t.here.year ∧ t.here.year ≤ 9999) :
    formatHeader l [] t file line =
      some [digitByte (t.here.year.toNat / 1000), digitByte (t.here.year.toNat / 100 % 10),
        digitByte (t.here.year.toNat / 10 % 10), digitByte (t.here.year.toNat % 10), 47,
        digitByte (t.here.month.toNat / 10), digitByte (t.here.month.toNat % 10), 47,
        digitByte (t.here.day.toNat / 10), digitByte (t.here.day.toNat % 10), 32] ∧
    (∀ out, formatHeader l [] t file line = some out → out.length = 11) ∧
    (t.here.year = 2024 → t.here.month = 3 → t.here.day = 7 →
      formatHeader l [] t file line = some (bytesOf "2024/03/07 ")) := by
  have hc : shownCivil l.flag t = t.here := by
    rw [hf]; unfold shownCivil; rw [if_neg (by decide)]
  have hmain : formatHeader l [] t file line =
      some [digitByte (t.here.year.toNat / 1000), digitByte (t.here.year.toNat / 100 % 10),
        digitByte (t.here.year.toNat / 10 % 10), digitByte (t.here.year.toNat % 10), 47,
        digitByte (t.here.month.toNat / 10), digitByte (t.here.month.toNat % 10), 47,
        digitByte (t.here.day.toNat / 10), digitByte (t.here.day.toNat % 10), 32] := by
    rw [formatHeader_eq l [] t file line
      (fun _ => by rw [hc]; exact ⟨hv, hy.1, by omega⟩)
      (fun h => by rw [hf] at h; exact absurd h (by decide)), hc, hp, hf]
    obtain ⟨⟨hm1, hm2⟩, ⟨hd1, hd2⟩, _⟩ := hv
    have d1 : dateSeg Ldate t.here = padDecimal t.here.year.toNat 4 ++ bytesOf "/" ++
        padDecimal t.here.month.toNat 2 ++ bytesOf "/" ++ padDecimal t.here.day.toNat 2 ++
        bytesOf " " := by
      unfold dateSeg; rw [if_pos (by decide)]
    have d2 : timeSeg Ldate t.here = [] := by
      unfold timeSeg; rw [if_neg (by decide)]
    have d3 : ∀ name, locSeg Ldate name line = [] := by
      intro name; unfold locSeg; rw [if_neg (by decide)]
    rw [d1, d2, d3, padDecimal_four _ (by omega), padDecimal_two _ (by omega),
      padDecimal_two _ (by omega)]
    rfl
  refine ⟨hmain, ?_, ?_⟩
  · intro out hout
    rw [hmain] at hout
    rw [← Option.some.inj hout]
    rfl
  · intro h1 h2 h3
    rw [hmain, h1, h2, h3]
    decide

/-- C6 witness: the date of `sampleTime`, 2024/01/02. -/
theorem C6_date_only_witness :
    formatHeader (New memSink [] Ldate) [] sampleTime [] 0 = some (bytesOf "2024/01/02 ") := by
  have h := (C6_date_only (New memSink [] Ldate) sampleTime [] 0 rfl rfl (by decide)
    (by decide)).1
  rw [h]
  decide

/-- C8: `Lshortfile` overrides `Llongfile`: for every logger, flag value `f`, buffer,
timestamp, file and line, `formatHeader` with flags `f|Lshortfile|Llongfile` yields the
same result as with flags `(f|Lshortfile) &^ Llongfile`. -/
theorem C8_shortfile_overrides_longfile (l : Logging) (f : Int) (buf : List Byte) (t : Time)
    (file : List Byte) (line : Int) :
    formatHeader { l with flag := Int.lor (Int.lor f Lshortfile) Llongfile } buf t file line =
      formatHeader { l with flag := Int.ldiff (Int.lor f Lshortfile) Llongfile } buf t file
        line := by
  refine formatHeader_flag_congr { l with flag := Int.lor (Int.lor f Lshortfile) Llongfile }
    { l with flag := Int.ldiff (Int.lor f Lshortfile) Llongfile } buf t file line rfl
    ?_ ?_ ?_ ?_ ?_ ?_ ?_
  · exact land_set_clear_Llongfile _ _ (by decide)
  · exact land_set_clear_Llongfile _ _ (by decide)
  · exact land_set_clear_Llongfile _ _ (by decide)
  · exact land_set_clear_Llongfile _ _ (by decide)
  · exact land_set_clear_Llongfile _ _ (by decide)
  · have h4 : Int.testBit Lshortfile 4 = true := by decide
    have h24 : Int.testBit (Int.lor Lshortfile Llongfile) 4 = true := by decide
    have h8 : Int.testBit Llongfile 4 = false := by decide
    constructor
    · intro _
      rw [land_ne_zero_iff]
      exact ⟨4, by simp [Int.testBit_ldiff, Int.testBit_lor, h4, h8], h24⟩
    · intro _
      rw [land_ne_zero_iff]
      exact ⟨4, by simp [Int.testBit_lor, h4], h24⟩
  · exact land_set_clear_Llongfile _ _ (by decide)

/-- C9: for a valid timestamp (nanoseconds in `0..999999999`), whenever `Lmicroseconds` is
set, with or without `Ltime`, the time segment is `HH:MM:SS.uuuuuu ` where `uuuuuu` is
the nanosecond field divided by 1000 in exactly 6 zero-padded digits; when `Ltime` is set
without `Lmicroseconds` it is `HH:MM:SS ` with no fractional part. -/
theorem C9_microseconds (l : Logging) (buf : List Byte) (t : Time) (file : List Byte)
    (line : Int) (hv : (shownCivil l.flag t).valid)
    (hy : 0 ≤ (shownCivil l.flag t).year ∧ (shownCivil l.flag t).year ≤ 9999)
    (hl : 0 ≤ line ∧ line < 2 ^ 63) :
    (Int.land l.flag Lmicroseconds ≠ 0 →
      formatHeader l buf t file line =
        some (buf ++ l.prefix_ ++ dateSeg l.flag (shownCivil l.flag t) ++
          (clockText (shownCivil l.flag t) ++ bytesOf "." ++
            padDecimal ((shownCivil l.flag t).nsec.toNat / 1000) 6 ++ bytesOf " ") ++
          locSeg l.flag (if Int.land l.flag Lshortfile ≠ 0 then shortFile file else file)
            line)) ∧
    (Int.land l.flag Ltime ≠ 0 → Int.land l.flag Lmicroseconds = 0 →
      formatHeader l buf t file line =
        some (buf ++ l.prefix_ ++ dateSeg l.flag (shownCivil l.flag t) ++
          (clockText (shownCivil l.flag t) ++ bytesOf " ") ++
          locSeg l.flag (if Int.land l.flag Lshortfile ≠ 0 then shortFile file else file)
            line)) ∧
    (padDecimal ((shownCivil l.flag t).nsec.toNat / 1000) 6).length = 6 ∧
    (clockText (shownCivil l.flag t)).length = 8 := by
  have hmain := formatHeader_eq l buf t file line (fun _ => ⟨hv, hy.1, by omega⟩) (fun _ => hl)
  obtain ⟨_, _, ⟨hh1, hh2⟩, ⟨hmi1, hmi2⟩, ⟨hs1, hs2⟩, ⟨hn1, hn2⟩⟩ := hv
  refine ⟨?_, ?_, ?_, ?_⟩
  · intro hM
    rw [hmain]
    unfold timeSeg
    rw [if_pos (Or.inr hM), if_pos hM]
    simp only [List.append_assoc]
  · intro hT hM
    rw [hmain]
    unfold timeSeg
    rw [if_pos (Or.inl hT), if_neg (by simpa using hM)]
    simp only [List.append_assoc, List.nil_append]
  · exact padDecimal_length_eq _ 6 (by decide) (by omega)
  · unfold clockText
    rw [padDecimal_two _ (by omega), padDecimal_two _ (by omega), padDecimal_two _ (by omega)]
    rfl

/-- C9 witness: `Lmicroseconds` alone at 03:04:05.123456789. -/
theorem C9_microseconds_witness :
    formatHeader (New memSink [] Lmicroseconds) [] sampleTime [] 0 =
      some ([] ++ (New memSink [] Lmicroseconds).prefix_ ++
        dateSeg Lmicroseconds (shownCivil Lmicroseconds sampleTime) ++
        (clockText (shownCivil Lmicroseconds sampleTime) ++ bytesOf "." ++
          padDecimal ((shownCivil Lmicroseconds sampleTime).nsec.toNat / 1000) 6 ++
          bytesOf " ") ++
        locSeg Lmicroseconds
          (if Int.land Lmicroseconds Lshortfile ≠ 0 then shortFile [] else []) 0) :=
  (C9_microseconds (New memSink [] Lmicroseconds) [] sampleTime [] 0 (by decide)
    (by decide) (by decide)).1 (by decide)

/-- C10: for every flag value with none of the bits `Ldate`, `Ltime`, `Lmicroseconds`,
`Llongfile`, `Lshortfile` set (`0`, or `LUTC` alone), `formatHeader` appends exactly the
prefix and nothing else, for every timestamp, file and line. -/
theorem C10_no_segments (l : Logging) (buf : List Byte) (t : Time) (file : List Byte)
    (line : Int) (hD : Int.land l.flag Ldate = 0) (hT : Int.land l.flag Ltime = 0)
    (hM : Int.land l.flag Lmicroseconds = 0) (hL : Int.land l.flag Llongfile = 0)
    (hS : Int.land l.flag Lshortfile = 0) :
    formatHeader l buf t file line = some (buf ++ l.prefix_) := by
  rw [formatHeader_eq l buf t file line
    (fun h => by rcases h with h | h | h <;> contradiction)
    (fun h => by rcases h with h | h <;> contradiction)]
  unfold dateSeg timeSeg locSeg
  simp [hD, hT, hM, hL, hS]

/-- C10 witness: `LUTC` alone. -/
theorem C10_no_segments_witness :
    formatHeader (New memSink (bytesOf "[X] ") LUTC) (bytesOf ">") sampleTime
      (bytesOf "/src/app/main.go") 42 = some (bytesOf ">" ++ bytesOf "[X] ") :=
  C10_no_segments (New memSink (bytesOf "[X] ") LUTC) (bytesOf ">") sampleTime
    (bytesOf "/src/app/main.go") 42 (by decide) (by decide) (by decide) (by decide) (by decide)

/-! ## Claims about `Output` -/

/-- C3: for every logger whose mutex is free and every message `s`, the bytes `Output`
hands to the sink are `header ++ s ++ "\n"` when `s` is empty or does not end with a
newline, and `header ++ s` when `s` already ends with one, where `header` is what
`formatHeader` renders for the logger's current prefix and flags (it renders one for
every timestamp and line number that fit `int`). -/
theorem C3_output_line (env : Env) (w : World) (l : Ptr) (calldepth : Int) (s : List Byte)
    (hmu : (w.heap l).mu = false) (henv : env.isInt) :
    ∃ hdr w1,
      formatHeader (w.heap l) [] env.now (callerInfo env (w.heap l).flag calldepth).1
        (callerInfo env (w.heap l).flag calldepth).2 = some hdr ∧
      ((∃ e, Output env w l calldepth s = .ret e w1) ∨
        Output env w l calldepth s = .exit 1 w1) ∧
      ((s = [] ∨ s.getLast? ≠ some 10) →
        (w1.heap l).out.received = (w.heap l).out.received ++ [hdr ++ s ++ bytesOf "\n"]) ∧
      (s.getLast? = some 10 →
        (w1.heap l).out.received = (w.heap l).out.received ++ [hdr ++ s]) := by
  obtain ⟨hdr, hh⟩ := formatHeader_isSome (w.heap l) [] env.now
    (callerInfo env (w.heap l).flag calldepth).1 (callerInfo env (w.heap l).flag calldepth).2
    henv.1 henv.2.1 (callerInfo_isInt env _ _ henv)
  obtain ⟨w1, hout, hrec⟩ := output_received env w l calldepth s hdr hmu hh
  refine ⟨hdr, w1, hh, hout, ?_, ?_⟩
  · intro hs
    have hs1 : s.length = 0 ∨ s.getLast? ≠ some 10 := by
      rcases hs with h | h
      · exact Or.inl (by rw [h]; rfl)
      · exact Or.inr h
    rw [hrec, if_pos hs1]
    rfl
  · intro hs
    have hs1 : ¬(s.length = 0 ∨ s.getLast? ≠ some 10) := by
      rintro (h | h)
      · rw [List.length_eq_zero] at h
        rw [h] at hs
        exact absurd hs (by simp)
      · exact h hs
    rw [hrec, if_neg hs1]

/-- C3 witness: the message `hello` through a logger with flags `Ldate|Ltime`. -/
theorem C3_output_line_witness :
    ∃ hdr w1,
      formatHeader ((sampleWorld LstdFlags).heap 1) [] sampleEnv.now
        (callerInfo sampleEnv ((sampleWorld LstdFlags).heap 1).flag 2).1
        (callerInfo sampleEnv ((sampleWorld LstdFlags).heap 1).flag 2).2 = some hdr ∧
      ((∃ e, Output sampleEnv (sampleWorld LstdFlags) 1 2 (bytesOf "hello") = .ret e w1) ∨
        Output sampleEnv (sampleWorld LstdFlags) 1 2 (bytesOf "hello") = .exit 1 w1) ∧
      ((bytesOf "hello" = [] ∨ (bytesOf "hello").getLast? ≠ some 10) →
        (w1.heap 1).out.received = ((sampleWorld LstdFlags).heap 1).out.received ++
          [hdr ++ bytesOf "hello" ++ bytesOf "\n"]) ∧
      ((bytesOf "hello").getLast? = some 10 →
        (w1.heap 1).out.received = ((sampleWorld LstdFlags).heap 1).out.received ++
          [hdr ++ bytesOf "hello"]) :=
  C3_output_line sampleEnv (sampleWorld LstdFlags) 1 2 (bytesOf "hello") (by decide)
    ⟨by decide, by decide, fun _ => (by decide : isInt 42)⟩

set_option maxRecDepth 8192 in
/-- C4 (as stated it fails): the message `a\n\n` is written unchanged after the header, so
the line handed to the sink ends with two consecutive newlines. -/
theorem C4_counterexample :
    (match Output sampleEnv (sampleWorld LstdFlags) 1 2 (bytesOf "a\n\n") with
      | .ret _ w1 => (w1.heap 1).out.received
      | _ => []) = [bytesOf "[X] 2024/01/02 03:04:05 a\n\n"] ∧
    endsWithTwoNewlines (bytesOf "[X] 2024/01/02 03:04:05 a\n\n") := by
  decide

/-- C4 (amended): for every logger whose mutex is free and every message `s`, the line
`Output` hands to the sink ends with a newline, and it is `header ++ s` itself when `s`
already ends with one; the line ends with two consecutive newlines exactly when `s`
itself does, or when `s` is empty or a single newline and the header ends with a
newline. -/
theorem C4_trailing_newline (env : Env) (w : World) (l : Ptr) (calldepth : Int)
    (s : List Byte) (hmu : (w.heap l).mu = false) (henv : env.isInt) :
    ∃ hdr w1 line,
      formatHeader (w.heap l) [] env.now (callerInfo env (w.heap l).flag calldepth).1
        (callerInfo env (w.heap l).flag calldepth).2 = some hdr ∧
      ((∃ e, Output env w l calldepth s = .ret e w1) ∨
        Output env w l calldepth s = .exit 1 w1) ∧
      (w1.heap l).out.received = (w.heap l).out.received ++ [line] ∧
      line.getLast? = some 10 ∧
      (s.getLast? = some 10 → line = hdr ++ s) ∧
      (endsWithTwoNewlines line ↔
        endsWithTwoNewlines s ∨ ((s = [] ∨ s = [10]) ∧ hdr.getLast? = some 10)) := by
  obtain ⟨hdr, hh⟩ := formatHeader_isSome (w.heap l) [] env.now
    (callerInfo env (w.heap l).flag calldepth).1 (callerInfo env (w.heap l).flag calldepth).2
    henv.1 henv.2.1 (callerInfo_isInt env _ _ henv)
  obtain ⟨w1, hout, hrec⟩ := output_received env w l calldepth s hdr hmu hh
  refine ⟨hdr, w1, _, hh, hout, hrec, (line_newlines hdr s).1, ?_, (line_newlines hdr s).2⟩
  intro hs
  have hs1 : ¬(s.length = 0 ∨ s.getLast? ≠ some 10) := by
    rintro (h | h)
    · rw [List.length_eq_zero] at h
      rw [h] at hs
      exact absurd hs (by simp)
    · exact h hs
  rw [if_neg hs1]

/-- C4 witness: the message `hello` through a logger with flags `Ldate|Ltime`. -/
theorem C4_trailing_newline_witness :
    ∃ hdr w1 line,
      formatHeader ((sampleWorld LstdFlags).heap 1) [] sampleEnv.now
        (callerInfo sampleEnv ((sampleWorld LstdFlags).heap 1).flag 2).1
        (callerInfo sampleEnv ((sampleWorld LstdFlags).heap 1).flag 2).2 = some hdr ∧
      ((∃ e, Output sampleEnv (sampleWorld LstdFlags) 1 2 (bytesOf "hello") = .ret e w1) ∨
        Output sampleEnv (sampleWorld LstdFlags) 1 2 (bytesOf "hello") = .exit 1 w1) ∧
      (w1.heap 1).out.received = ((sampleWorld LstdFlags).heap 1).out.received ++ [line] ∧
      line.getLast? = some 10 ∧
      ((bytesOf "hello").getLast? = some 10 → line = hdr ++ bytesOf "hello") ∧
      (endsWithTwoNewlines line ↔
        endsWithTwoNewlines (bytesOf "hello") ∨
          ((bytesOf "hello" = [] ∨ bytesOf "hello" = [10]) ∧ hdr.getLast? = some 10)) :=
  C4_trailing_newline sampleEnv (sampleWorld LstdFlags) 1 2 (bytesOf "hello") (by decide)
    ⟨by decide, by decide, fun _ => (by decide : isInt 42)⟩

/-- C5: a logger built by `New` with an in-memory sink, prefix `[X] ` and flags
`Ldate|Ltime`, called with the message `hello` at 2024/01/02 03:04:05 (the mirror path
being empty or its file opening), writes exactly `[X] 2024/01/02 03:04:05 hello\n` to the
sink and returns no error. -/
theorem C5_end_to_end (env : Env) (w : World) (l : Ptr) (calldepth : Int) (sink : Writer)
    (ns : Int) (hl : w.heap l = New sink (bytesOf "[X] ") (Int.lor Ldate Ltime))
    (hsink : ∀ p, sink.fails p = none)
    (hnow : env.now.here = Civil.mk 2024 1 2 3 4 5 ns) (hns : 0 ≤ ns ∧ ns ≤ 999999999)
    (hmirror : (w.heap w.Logger).filePath = [] ∨
      w.fs.openErr (w.heap w.Logger).filePath = none) :
    ∃ w1, Output env w l calldepth (bytesOf "hello") = .ret none w1 ∧
      (w1.heap l).out.received =
        sink.received ++ [bytesOf "[X] 2024/01/02 03:04:05 hello\n"] := by
  have hmu : (w.heap l).mu = false := by rw [hl]; rfl
  have hh := header_std (w.heap l) env.now (callerInfo env (w.heap l).flag calldepth).1
    (callerInfo env (w.heap l).flag calldepth).2 ns (by rw [hl]; rfl) (by rw [hl]; rfl) hnow hns
  rw [Output_eq env w l calldepth (bytesOf "hello") _ hmu hh
    (bytesOf "[X] 2024/01/02 03:04:05 hello\n") (by decide)]
  have hpath : ((w.store l { w.heap l with
      mu := true, buf := bytesOf "[X] 2024/01/02 03:04:05 hello\n",
      out := ((w.heap l).out.Write (bytesOf "[X] 2024/01/02 03:04:05 hello\n")).1 }).heap
        w.Logger).filePath = (w.heap w.Logger).filePath := by
    unfold World.store
    by_cases hq : w.Logger = l
    · simp [hq]
    · simp [hq]
  obtain ⟨fs1, hret⟩ := setOutputFile_ret (w.store l { w.heap l with
      mu := true, buf := bytesOf "[X] 2024/01/02 03:04:05 hello\n",
      out := ((w.heap l).out.Write (bytesOf "[X] 2024/01/02 03:04:05 hello\n")).1 })
    (bytesOf "[X] 2024/01/02 03:04:05 hello\n")
    (by
      show ((w.store l _).heap w.Logger).filePath = [] ∨
        w.fs.openErr ((w.store l _).heap w.Logger).filePath = none
      rw [hpath]; exact hmirror)
  have herr : ((w.heap l).out.Write (bytesOf "[X] 2024/01/02 03:04:05 hello\n")).2 = none := by
    simp only [Writer.Write, hl, New, hsink]
  rw [hret]
  simp only [herr]
  refine ⟨_, rfl, ?_⟩
  simp [World.store, Writer.Write, hl, New]

/-- C5 witness: the sample state, whose sink is empty and whose mirror path is empty. -/
theorem C5_end_to_end_witness :
    ∃ w1, Output sampleEnv (sampleWorld (Int.lor Ldate Ltime)) 1 2 (bytesOf "hello")
        = .ret none w1 ∧
      (w1.heap 1).out.received =
        memSink.received ++ [bytesOf "[X] 2024/01/02 03:04:05 hello\n"] :=
  C5_end_to_end sampleEnv (sampleWorld (Int.lor Ldate Ltime)) 1 2 memSink 123456789 rfl
    (fun _ => rfl) rfl (by decide) (Or.inl rfl)

/-! ## The short file name at a leading slash -/

/-- C7 (the code at the failing input): with `Lshortfile` set and the caller's path
`/main.go`, the last path segment is `main.go`, yet `formatHeader` renders `/main.go`:
the loop stops at `i > 0` and never looks at the first byte. -/
theorem C7_short_file_leading_slash :
    formatHeader (New memSink [] Lshortfile) [] sampleTime (bytesOf "/main.go") 7
        = some (bytesOf "/main.go:7: ") ∧
      lastSegment (bytesOf "/main.go") = bytesOf "main.go" ∧
      shortFile (bytesOf "/main.go") = bytesOf "/main.go" := by
  decide

/-! ## Claims about the returned error and the mirror file -/

/-- C11: when the logger's mutex is free and the mirror file, if configured, opens,
`Output` returns, and the value it returns is exactly the error the sink's `Write`
returns for the line: an error if and only if that write fails. The error of the mirror
write plays no part: whatever it is, the returned value is the same. -/
theorem C11_output_error (env : Env) (w : World) (l : Ptr) (calldepth : Int) (s : List Byte)
    (hmu : (w.heap l).mu = false) (henv : env.isInt)
    (hm : (w.heap w.Logger).filePath = [] ∨
      w.fs.openErr (w.heap w.Logger).filePath = none) :
    ∃ hdr line,
      formatHeader (w.heap l) [] env.now (callerInfo env (w.heap l).flag calldepth).1
        (callerInfo env (w.heap l).flag calldepth).2 = some hdr ∧
      line = (if s.length = 0 ∨ s.getLast? ≠ some 10 then hdr ++ s ++ [10] else hdr ++ s) ∧
      (∃ w1, Output env w l calldepth s = .ret ((w.heap l).out.Write line).2 w1) ∧
      (∀ e w1, Output env w l calldepth s = .ret e w1 →
        (e ≠ none ↔ ((w.heap l).out.Write line).2 ≠ none)) ∧
      (∀ we, ∃ w1, Output env { w with fs := { w.fs with writeErr := we } } l calldepth s
        = .ret ((w.heap l).out.Write line).2 w1) := by
  obtain ⟨hdr, hh⟩ := formatHeader_isSome (w.heap l) [] env.now
    (callerInfo env (w.heap l).flag calldepth).1 (callerInfo env (w.heap l).flag calldepth).2
    henv.1 henv.2.1 (callerInfo_isInt env _ _ henv)
  have hret := Output_ret_eq env w l calldepth s hdr _ hmu hh rfl hm
  refine ⟨hdr, _, hh, rfl, ⟨_, hret⟩, ?_, ?_⟩
  · intro e w1 he
    rw [hret] at he
    injection he with he1 _
    rw [← he1]
    rfl
  · intro we
    exact ⟨_, Output_ret_eq env { w with fs := { w.fs with writeErr := we } } l calldepth s
      hdr _ hmu hh rfl hm⟩

/-- C11 witness: a logger other than the default one, the default one mirroring to
`app.log`. -/
theorem C11_output_error_witness :
    ∃ hdr line,
      formatHeader (mirrorWorld.heap 1) [] sampleEnv.now
        (callerInfo sampleEnv (mirrorWorld.heap 1).flag 2).1
        (callerInfo sampleEnv (mirrorWorld.heap 1).flag 2).2 = some hdr ∧
      line = (if (bytesOf "hello").length = 0 ∨ (bytesOf "hello").getLast? ≠ some 10 then
        hdr ++ bytesOf "hello" ++ [10] else hdr ++ bytesOf "hello") ∧
      (∃ w1, Output sampleEnv mirrorWorld 1 2 (bytesOf "hello")
        = .ret ((mirrorWorld.heap 1).out.Write line).2 w1) ∧
      (∀ e w1, Output sampleEnv mirrorWorld 1 2 (bytesOf "hello") = .ret e w1 →
        (e ≠ none ↔ ((mirrorWorld.heap 1).out.Write line).2 ≠ none)) ∧
      (∀ we, ∃ w1, Output sampleEnv
          { mirrorWorld with fs := { mirrorWorld.fs with writeErr := we } } 1 2 (bytesOf "hello")
        = .ret ((mirrorWorld.heap 1).out.Write line).2 w1) :=
  C11_output_error sampleEnv mirrorWorld 1 2 (bytesOf "hello") (by decide)
    ⟨by decide, by decide, fun _ => (by decide : isInt 42)⟩ (Or.inr rfl)

/-- C12: for every logger `l` whose mutex is free, the default one or another, and every
`Output` call on `l`: if the `filePath` of the default `Logger` is not empty and its file
opens and accepts the write, the bytes appended to that file are the bytes handed to the
sink of `l` in that call, whatever the sink's `Write` returns, and no other file changes;
if that `filePath` is empty, no file is opened or written; and the `filePath` of `l`
itself, when `l` is not the default logger, has no influence on the outcome. -/
theorem C12_mirror_from_default (env : Env) (w : World) (l : Ptr) (calldepth : Int)
    (s : List Byte) (hmu : (w.heap l).mu = false) (henv : env.isInt) :
    ∃ hdr line,
      formatHeader (w.heap l) [] env.now (callerInfo env (w.heap l).flag calldepth).1
        (callerInfo env (w.heap l).flag calldepth).2 = some hdr ∧
      line = (if s.length = 0 ∨ s.getLast? ≠ some 10 then hdr ++ s ++ [10] else hdr ++ s) ∧
      ((w.heap w.Logger).filePath ≠ [] →
        w.fs.openErr (w.heap w.Logger).filePath = none →
        w.fs.writeErr (w.heap w.Logger).filePath = none →
        ∃ w1, Output env w l calldepth s = .ret ((w.heap l).out.fails line) w1 ∧
          (w1.heap l).out.received = (w.heap l).out.received ++ [line] ∧
          w1.fs.content (w.heap w.Logger).filePath =
            w.fs.content (w.heap w.Logger).filePath ++ line ∧
          (∀ q, q ≠ (w.heap w.Logger).filePath → w1.fs.content q = w.fs.content q) ∧
          w1.fs.opened = w.fs.opened ++ [(w.heap w.Logger).filePath]) ∧
      ((w.heap w.Logger).filePath = [] →
        ∃ w1, Output env w l calldepth s = .ret ((w.heap l).out.fails line) w1 ∧
          (w1.heap l).out.received = (w.heap l).out.received ++ [line] ∧ w1.fs = w.fs) ∧
      (l ≠ w.Logger → ∀ p,
        (∃ e w1 w2, Output env w l calldepth s = .ret e w1 ∧
          Output env (w.store l { w.heap l with filePath := p }) l calldepth s = .ret e w2 ∧
          w2.fs = w1.fs ∧ (w2.heap l).out = (w1.heap l).out) ∨
        (∃ w1 w2, Output env w l calldepth s = .exit 1 w1 ∧
          Output env (w.store l { w.heap l with filePath := p }) l calldepth s = .exit 1 w2 ∧
          w2.fs = w1.fs ∧ (w2.heap l).out = (w1.heap l).out)) := by
  obtain ⟨hdr, hh⟩ := formatHeader_isSome (w.heap l) [] env.now
    (callerInfo env (w.heap l).flag calldepth).1 (callerInfo env (w.heap l).flag calldepth).2
    henv.1 henv.2.1 (callerInfo_isInt env _ _ henv)
  refine ⟨hdr, _, hh, rfl, ?_, ?_, ?_⟩
  · intro hp ho hw
    refine ⟨_, Output_ret_eq env w l calldepth s hdr _ hmu hh rfl (Or.inr ho), ?_, ?_, ?_, ?_⟩
    · simp
    · simp [hp, FS.append, FS.openFile, hw]
    · intro q hq
      simp [hp, FS.append, FS.openFile, hw, hq]
    · simp [hp, FS.append, FS.openFile, hw]
  · intro hp
    refine ⟨_, Output_ret_eq env w l calldepth s hdr _ hmu hh rfl (Or.inl hp), ?_, ?_⟩
    · simp
    · simp [hp]
  · intro hl p
    have e1 : (w.store l { w.heap l with filePath := p }).heap l
        = { w.heap l with filePath := p } := by
      simp [World.store]
    have e2 : (w.store l { w.heap l with filePath := p }).heap
        (w.store l { w.heap l with filePath := p }).Logger = w.heap w.Logger := by
      simp [World.store, Ne.symm hl]
    have hmu2 : ((w.store l { w.heap l with filePath := p }).heap l).mu = false := by
      rw [e1]; exact hmu
    have hh2 : formatHeader ((w.store l { w.heap l with filePath := p }).heap l) [] env.now
        (callerInfo env ((w.store l { w.heap l with filePath := p }).heap l).flag calldepth).1
        (callerInfo env ((w.store l { w.heap l with filePath := p }).heap l).flag calldepth).2
        = some hdr := by
      rw [e1]
      rw [formatHeader_fields_congr { w.heap l with filePath := p } (w.heap l) _ _ _ _ rfl rfl]
      exact hh
    by_cases hp : (w.heap w.Logger).filePath = []
    · left
      have h1 := Output_ret_eq env w l calldepth s hdr _ hmu hh rfl (Or.inl hp)
      have h2 := Output_ret_eq env (w.store l { w.heap l with filePath := p }) l calldepth s
        hdr _ hmu2 hh2 rfl (Or.inl (by rw [e2]; exact hp))
      rw [e1, e2] at h2
      refine ⟨_, _, _, h1, h2, ?_, ?_⟩
      · simp [hp, World.store]
      · simp
    · cases ho : w.fs.openErr (w.heap w.Logger).filePath with
      | none =>
        left
        have h1 := Output_ret_eq env w l calldepth s hdr _ hmu hh rfl (Or.inr ho)
        have h2 := Output_ret_eq env (w.store l { w.heap l with filePath := p }) l calldepth s
          hdr _ hmu2 hh2 rfl (Or.inr (by rw [e2]; exact ho))
        rw [e1, e2] at h2
        refine ⟨_, _, _, h1, h2, ?_, ?_⟩
        · simp [hp, World.store]
        · simp
      | some e =>
        right
        have h1 := Output_exit_eq env w l calldepth s hdr _ e hmu hh rfl hp ho
        have h2 := Output_exit_eq env (w.store l { w.heap l with filePath := p }) l calldepth s
          hdr _ e hmu2 hh2 rfl (by rw [e2]; exact hp) (by rw [e2]; exact ho)
        rw [e1] at h2
        refine ⟨_, _, h1, h2, ?_, ?_⟩
        · simp [World.store]
        · simp [World.store]

/-- C12 witness: a logger other than the default one writes `hello`; the line also ends
up in `app.log`, the mirror path of the default logger. -/
theorem C12_mirror_from_default_witness :
    ∃ w1, Output sampleEnv mirrorWorld 1 2 (bytesOf "hello") = .ret none w1 ∧
      (w1.heap 1).out.received = [bytesOf "[X] 2024/01/02 03:04:05 hello\n"] ∧
      w1.fs.content (bytesOf "app.log") = bytesOf "[X] 2024/01/02 03:04:05 hello\n" := by
  obtain ⟨hdr, line, hh, hline, ha, _, _⟩ :=
    C12_mirror_from_default sampleEnv mirrorWorld 1 2 (bytesOf "hello") (by decide)
      ⟨by decide, by decide, fun _ => (by decide : isInt 42)⟩
  have hh0 : formatHeader (mirrorWorld.heap 1) [] sampleEnv.now
      (callerInfo sampleEnv (mirrorWorld.heap 1).flag 2).1
      (callerInfo sampleEnv (mirrorWorld.heap 1).flag 2).2
      = some (bytesOf "[X] 2024/01/02 03:04:05 ") := by decide
  rw [hh0] at hh
  have hhdr : hdr = bytesOf "[X] 2024/01/02 03:04:05 " := (Option.some.inj hh).symm
  subst hhdr
  have hl : line = bytesOf "[X] 2024/01/02 03:04:05 hello\n" := by
    rw [hline]; decide
  subst hl
  obtain ⟨w1, h1, h2, h3, _, _⟩ := ha (by decide) rfl rfl
  exact ⟨w1, h1, h2, h3⟩

/-! ## Claims about the level functions -/

/-- C13: whenever the `debugFlag` of the default `Logger` is not `DebugOn`, `Debug`
returns without a call of `Write` on any sink and without touching the file system. -/
theorem C13_debug_gate_off {α : Type} (Sprint : List α → List Byte) (env : Env) (w : World)
    (v : List α) (hg : (w.heap w.Logger).debugFlag ≠ DebugOn) :
    ∃ w1, Debug Sprint env w v = .ret () w1 ∧
      (∀ p, (w1.heap p).out = (w.heap p).out) ∧ w1.fs = w.fs := by
  have hg1 : ((w.store w.Logger { w.heap w.Logger with prefix_ := bytesOf "[DEBUG]" }).heap
      (w.store w.Logger { w.heap w.Logger with prefix_ := bytesOf "[DEBUG]" }).Logger).debugFlag
      ≠ DebugOn := by
    simpa [World.store] using hg
  refine ⟨w.store w.Logger { w.heap w.Logger with prefix_ := bytesOf "[DEBUG]" }, ?_, ?_, rfl⟩
  · unfold Debug
    simp only [hg1, ne_eq, not_false_eq_true, if_true]
  · intro p
    by_cases hp : p = w.Logger
    · simp [World.store, hp]
    · simp [World.store, hp]

/-- C13 witness: the sample state, whose debug gate is 0. -/
theorem C13_debug_gate_off_witness :
    ∃ w1, Debug sampleSprint sampleEnv (sampleWorld LstdFlags) [bytesOf "x"] = .ret () w1 ∧
      (∀ p, (w1.heap p).out = ((sampleWorld LstdFlags).heap p).out) ∧
      w1.fs = (sampleWorld LstdFlags).fs :=
  C13_debug_gate_off sampleSprint sampleEnv (sampleWorld LstdFlags) [bytesOf "x"] (by decide)

/-- C14 (as stated it fails): with the gate off, `Debug` has already assigned the prefix
when it returns: the logger's prefix `[X] ` has become `[DEBUG]`. -/
theorem C14_counterexample :
    ((sampleWorld LstdFlags).heap (sampleWorld LstdFlags).Logger).debugFlag ≠ DebugOn ∧
    ((sampleWorld LstdFlags).heap (sampleWorld LstdFlags).Logger).prefix_ = bytesOf "[X] " ∧
    (match Debug sampleSprint sampleEnv (sampleWorld LstdFlags) [bytesOf "x"] with
      | .ret _ w1 => (w1.heap w1.Logger).prefix_
      | _ => []) = bytesOf "[DEBUG]" ∧
    bytesOf "[DEBUG]" ≠ bytesOf "[X] " := by
  decide

/-- C14 (amended): when `debugFlag` is not `DebugOn`, `Debug` returns, and the state of the
default `Logger` after the call is its state before it except for the prefix, which is
`[DEBUG]`: flags, debug gate, sink, scratch buffer, mirror path and mutex are unchanged,
and so are every other logger and the file system. -/
theorem C14_debug_gate_frame {α : Type} (Sprint : List α → List Byte) (env : Env) (w : World)
    (v : List α) (hg : (w.heap w.Logger).debugFlag ≠ DebugOn) :
    ∃ w1, Debug Sprint env w v = .ret () w1 ∧
      w1.heap w.Logger = { w.heap w.Logger with prefix_ := bytesOf "[DEBUG]" } ∧
      (∀ p, p ≠ w.Logger → w1.heap p = w.heap p) ∧ w1.Logger = w.Logger ∧ w1.fs = w.fs := by
  have hg1 : ((w.store w.Logger { w.heap w.Logger with prefix_ := bytesOf "[DEBUG]" }).heap
      (w.store w.Logger { w.heap w.Logger with prefix_ := bytesOf "[DEBUG]" }).Logger).debugFlag
      ≠ DebugOn := by
    simpa [World.store] using hg
  refine ⟨w.store w.Logger { w.heap w.Logger with prefix_ := bytesOf "[DEBUG]" }, ?_, ?_, ?_,
    rfl, rfl⟩
  · unfold Debug
    simp only [hg1, ne_eq, not_false_eq_true, if_true]
  · simp [World.store]
  · intro p hp
    simp [World.store, hp]

/-- C14 witness: the sample state, whose debug gate is 0. -/
theorem C14_debug_gate_frame_witness :
    ∃ w1, Debug sampleSprint sampleEnv (sampleWorld LstdFlags) [bytesOf "x"] = .ret () w1 ∧
      w1.heap (sampleWorld LstdFlags).Logger =
        { (sampleWorld LstdFlags).heap (sampleWorld LstdFlags).Logger with
          prefix_ := bytesOf "[DEBUG]" } ∧
      (∀ p, p ≠ (sampleWorld LstdFlags).Logger → w1.heap p = (sampleWorld LstdFlags).heap p) ∧
      w1.Logger = (sampleWorld LstdFlags).Logger ∧ w1.fs = (sampleWorld LstdFlags).fs :=
  C14_debug_gate_frame sampleSprint sampleEnv (sampleWorld LstdFlags) [bytesOf "x"] (by decide)

/-- C15: each package-level level function assigns its own tag to the prefix of the
default `Logger` and then emits through `Output` with call depth 2. With the mutex of the
default logger free, the line handed to its sink by `Info`, `Debug` (gate on), `Error`
and `Fatal` is the tag of that function (`[INFObbbbb]`, `[DEBUG]`, `[ERROR]`, `[FATAL]`,
pairwise distinct), then the header segments `formatHeader` renders for the caller two
frames up, then the concatenated arguments, then the newline when the arguments do not
end with one. -/
theorem C15_level_functions {α : Type} (Sprint : List α → List Byte) (env : Env) (w : World)
    (v : List α) (hmu : (w.heap w.Logger).mu = false) (henv : env.isInt) :
    ∃ segs,
      formatHeader { w.heap w.Logger with prefix_ := [] } [] env.now
        (callerInfo env (w.heap w.Logger).flag 2).1
        (callerInfo env (w.heap w.Logger).flag 2).2 = some segs ∧
      (∃ w1, (Info Sprint env w v = .ret () w1 ∨ Info Sprint env w v = .exit 1 w1) ∧
        (w1.heap w.Logger).prefix_ = bytesOf "[INFObbbbb]" ∧
        (w1.heap w.Logger).out.received = (w.heap w.Logger).out.received ++
          [if (Sprint v).length = 0 ∨ (Sprint v).getLast? ≠ some 10
            then bytesOf "[INFObbbbb]" ++ segs ++ Sprint v ++ [10]
            else bytesOf "[INFObbbbb]" ++ segs ++ Sprint v]) ∧
      ((w.heap w.Logger).debugFlag = DebugOn →
        ∃ w1, (Debug Sprint env w v = .ret () w1 ∨ Debug Sprint env w v = .exit 1 w1) ∧
          (w1.heap w.Logger).prefix_ = bytesOf "[DEBUG]" ∧
          (w1.heap w.Logger).out.received = (w.heap w.Logger).out.received ++
            [if (Sprint v).length = 0 ∨ (Sprint v).getLast? ≠ some 10
              then bytesOf "[DEBUG]" ++ segs ++ Sprint v ++ [10]
              else bytesOf "[DEBUG]" ++ segs ++ Sprint v]) ∧
      (∃ w1, (Error Sprint env w v = .ret () w1 ∨ Error Sprint env w v = .exit 1 w1) ∧
        (w1.heap w.Logger).prefix_ = bytesOf "[ERROR]" ∧
        (w1.heap w.Logger).out.received = (w.heap w.Logger).out.received ++
          [if (Sprint v).length = 0 ∨ (Sprint v).getLast? ≠ some 10
            then bytesOf "[ERROR]" ++ segs ++ Sprint v ++ [10]
            else bytesOf "[ERROR]" ++ segs ++ Sprint v]) ∧
      (∃ w1, Fatal Sprint env w v = .exit 1 w1 ∧
        (w1.heap w.Logger).prefix_ = bytesOf "[FATAL]" ∧
        (w1.heap w.Logger).out.received = (w.heap w.Logger).out.received ++
          [if (Sprint v).length = 0 ∨ (Sprint v).getLast? ≠ some 10
            then bytesOf "[FATAL]" ++ segs ++ Sprint v ++ [10]
            else bytesOf "[FATAL]" ++ segs ++ Sprint v]) ∧
      [bytesOf "[INFObbbbb]", bytesOf "[DEBUG]", bytesOf "[ERROR]", bytesOf "[FATAL]"].Nodup := by
  obtain ⟨segs, hshape⟩ := formatHeader_shape (w.heap w.Logger).flag env.now
    (callerInfo env (w.heap w.Logger).flag 2).1 (callerInfo env (w.heap w.Logger).flag 2).2
    henv.1 henv.2.1 (callerInfo_isInt env _ _ henv)
  refine ⟨segs, ?_, ?_, ?_, ?_, ?_, by decide⟩
  · have h := hshape { w.heap w.Logger with prefix_ := [] } [] rfl
    simpa using h
  · obtain ⟨w1, m, hout, hheap, _, _⟩ :=
      level_emit env w (bytesOf "[INFObbbbb]") (Sprint v) segs hmu hshape
    refine ⟨w1, ?_, by rw [hheap], by rw [hheap]⟩
    unfold Info
    rcases hout with ⟨e, h, _⟩ | ⟨h, _⟩
    · left; simp only [h]
    · right; simp only [h]
  · intro hg
    obtain ⟨w1, m, hout, hheap, _, _⟩ :=
      level_emit env w (bytesOf "[DEBUG]") (Sprint v) segs hmu hshape
    refine ⟨w1, ?_, by rw [hheap], by rw [hheap]⟩
    have hg1 : ¬((w.store w.Logger { w.heap w.Logger with prefix_ := bytesOf "[DEBUG]" }).heap
        (w.store w.Logger { w.heap w.Logger with prefix_ := bytesOf "[DEBUG]" }).Logger).debugFlag
        ≠ DebugOn := by
      simpa [World.store] using hg
    unfold Debug
    simp only [hg1, if_false]
    rcases hout with ⟨e, h, _⟩ | ⟨h, _⟩
    · left; simp only [h]
    · right; simp only [h]
  · obtain ⟨w1, m, hout, hheap, _, _⟩ :=
      level_emit env w (bytesOf "[ERROR]") (Sprint v) segs hmu hshape
    refine ⟨w1, ?_, by rw [hheap], by rw [hheap]⟩
    unfold Error
    rcases hout with ⟨e, h, _⟩ | ⟨h, _⟩
    · left; simp only [h]
    · right; simp only [h]
  · obtain ⟨w1, m, hout, hheap, _, _⟩ :=
      level_emit env w (bytesOf "[FATAL]") (Sprint v) segs hmu hshape
    refine ⟨w1, ?_, by rw [hheap], by rw [hheap]⟩
    unfold Fatal
    rcases hout with ⟨e, h, _⟩ | ⟨h, _⟩
    · simp only [h]
    · simp only [h]

/-- C15 witness: `Debug("hi")` with the gate on, flags `Ldate|Ltime`. -/
theorem C15_level_functions_witness :
    ∃ w1, (Debug sampleSprint sampleEnv gateWorld [bytesOf "hi"] = .ret () w1 ∨
        Debug sampleSprint sampleEnv gateWorld [bytesOf "hi"] = .exit 1 w1) ∧
      (w1.heap gateWorld.Logger).out.received = [bytesOf "[DEBUG]2024/01/02 03:04:05 hi\n"] := by
  obtain ⟨segs, hsegs, _, hD, _, _, _⟩ :=
    C15_level_functions sampleSprint sampleEnv gateWorld [bytesOf "hi"] (by decide)
      ⟨by decide, by decide, fun _ => (by decide : isInt 42)⟩
  have h0 : formatHeader { gateWorld.heap gateWorld.Logger with prefix_ := [] } [] sampleEnv.now
      (callerInfo sampleEnv (gateWorld.heap gateWorld.Logger).flag 2).1
      (callerInfo sampleEnv (gateWorld.heap gateWorld.Logger).flag 2).2
      = some (bytesOf "2024/01/02 03:04:05 ") := by decide
  rw [h0] at hsegs
  have hs : segs = bytesOf "2024/01/02 03:04:05 " := (Option.some.inj hsegs).symm
  subst hs
  obtain ⟨w1, hout, _, hrec⟩ := hD (by decide)
  refine ⟨w1, hout, ?_⟩
  rw [hrec]
  decide

/-- C16: with the mutex of the default logger free, `Fatal` always ends in exit status 1,
for every argument list and whatever the sink's `Write` returns, and exactly one line has
been handed to the sink by then: the `[FATAL]` tag, the header segments, the arguments and
the newline. -/
theorem C16_fatal_exits {α : Type} (Sprint : List α → List Byte) (env : Env) (w : World)
    (v : List α) (hmu : (w.heap w.Logger).mu = false) (henv : env.isInt) :
    ∃ segs w1,
      formatHeader { w.heap w.Logger with prefix_ := [] } [] env.now
        (callerInfo env (w.heap w.Logger).flag 2).1
        (callerInfo env (w.heap w.Logger).flag 2).2 = some segs ∧
      Fatal Sprint env w v = .exit 1 w1 ∧
      (w1.heap w.Logger).out.received = (w.heap w.Logger).out.received ++
        [if (Sprint v).length = 0 ∨ (Sprint v).getLast? ≠ some 10
          then bytesOf "[FATAL]" ++ segs ++ Sprint v ++ [10]
          else bytesOf "[FATAL]" ++ segs ++ Sprint v] := by
  obtain ⟨segs, hshape⟩ := formatHeader_shape (w.heap w.Logger).flag env.now
    (callerInfo env (w.heap w.Logger).flag 2).1 (callerInfo env (w.heap w.Logger).flag 2).2
    henv.1 henv.2.1 (callerInfo_isInt env _ _ henv)
  obtain ⟨w1, m, hout, hheap, _, _⟩ :=
    level_emit env w (bytesOf "[FATAL]") (Sprint v) segs hmu hshape
  refine ⟨segs, w1, ?_, ?_, by rw [hheap]⟩
  · have h := hshape { w.heap w.Logger with prefix_ := [] } [] rfl
    simpa using h
  · unfold Fatal
    rcases hout with ⟨e, h, _⟩ | ⟨h, _⟩
    · simp only [h]
    · simp only [h]

/-- C16 witness: `Fatal("boom")` on the sample state. -/
theorem C16_fatal_exits_witness :
    ∃ w1, Fatal sampleSprint sampleEnv (sampleWorld LstdFlags) [bytesOf "boom"] = .exit 1 w1 ∧
      (w1.heap (sampleWorld LstdFlags).Logger).out.received
        = [bytesOf "[FATAL]2024/01/02 03:04:05 boom\n"] := by
  obtain ⟨segs, w1, hsegs, hout, hrec⟩ :=
    C16_fatal_exits sampleSprint sampleEnv (sampleWorld LstdFlags) [bytesOf "boom"] (by decide)
      ⟨by decide, by decide, fun _ => (by decide : isInt 42)⟩
  have h0 : formatHeader
      { (sampleWorld LstdFlags).heap (sampleWorld LstdFlags).Logger with prefix_ := [] } []
      sampleEnv.now
      (callerInfo sampleEnv ((sampleWorld LstdFlags).heap (sampleWorld LstdFlags).Logger).flag 2).1
      (callerInfo sampleEnv ((sampleWorld LstdFlags).heap (sampleWorld LstdFlags).Logger).flag 2).2
      = some (bytesOf "2024/01/02 03:04:05 ") := by decide
  rw [h0] at hsegs
  have hs : segs = bytesOf "2024/01/02 03:04:05 " := (Option.some.inj hsegs).symm
  subst hs
  refine ⟨w1, hout, ?_⟩
  rw [hrec]
  decide

/-! ## Claims about the constants, the scratch buffer and the method `Info` -/

/-- C17: the header flag constants are single bits with the values `Ldate = 1`,
`Ltime = 2`, `Lmicroseconds = 4`, `Llongfile = 8`, `Lshortfile = 16`, `LUTC = 32`, no two
of which share a bit; `LstdFlags` is `Ldate|Ltime`, which is 3, and it is the flag value of
the default `Logger` as initialised; `DebugOn` is 1. -/
theorem C17_flag_constants (stderr : Writer) :
    (Ldate = 1 ∧ Ltime = 2 ∧ Lmicroseconds = 4 ∧ Llongfile = 8 ∧ Lshortfile = 16 ∧
      LUTC = 32) ∧
    [Ldate, Ltime, Lmicroseconds, Llongfile, Lshortfile, LUTC].Pairwise
      (fun a b => Int.land a b = 0) ∧
    (∀ m ∈ [Ldate, Ltime, Lmicroseconds, Llongfile, Lshortfile, LUTC],
      ∃ k : Nat, k < 6 ∧ m = 2 ^ k) ∧
    LstdFlags = Int.lor Ldate Ltime ∧ LstdFlags = 3 ∧
    (initialLogger stderr).flag = LstdFlags ∧ DebugOn = 1 := by
  refine ⟨by decide, by decide, ?_, rfl, by decide, rfl, rfl⟩
  intro m hm
  simp only [List.mem_cons, List.mem_singleton, List.not_mem_nil, or_false] at hm
  rcases hm with rfl | rfl | rfl | rfl | rfl | rfl
  · exact ⟨0, by decide, by decide⟩
  · exact ⟨1, by decide, by decide⟩
  · exact ⟨2, by decide, by decide⟩
  · exact ⟨3, by decide, by decide⟩
  · exact ⟨4, by decide, by decide⟩
  · exact ⟨5, by decide, by decide⟩

/-- C18: the scratch buffer is reset at the start of every `Output` call. For a logger
whose mutex is free and any two states that differ only in the content of its `buf`,
`Output` with the same message, timestamp and caller ends the same way and hands the
same line to the sink, and after the call `buf` holds exactly that line; a second call
that follows a returned first call hands over its own header and message only. -/
theorem C18_scratch_buffer_reset (env : Env) (w : World) (l : Ptr) (calldepth : Int)
    (s b : List Byte) (hmu : (w.heap l).mu = false) (henv : env.isInt) :
    ∃ hdr line w1 w2,
      formatHeader (w.heap l) [] env.now (callerInfo env (w.heap l).flag calldepth).1
        (callerInfo env (w.heap l).flag calldepth).2 = some hdr ∧
      line = (if s.length = 0 ∨ s.getLast? ≠ some 10 then hdr ++ s ++ [10] else hdr ++ s) ∧
      ((∃ e, Output env w l calldepth s = .ret e w1 ∧
          Output env (w.store l { w.heap l with buf := b }) l calldepth s = .ret e w2) ∨
        (Output env w l calldepth s = .exit 1 w1 ∧
          Output env (w.store l { w.heap l with buf := b }) l calldepth s = .exit 1 w2)) ∧
      (w1.heap l).out.received = (w.heap l).out.received ++ [line] ∧
      (w2.heap l).out.received = (w.heap l).out.received ++ [line] ∧
      (w1.heap l).buf = line ∧ (w2.heap l).buf = line ∧
      (∀ e, Output env w l calldepth s = .ret e w1 →
        ∀ (env2 : Env) (calldepth2 : Int) (s2 : List Byte), env2.isInt →
          ∃ hdr2 w3,
            formatHeader (w.heap l) [] env2.now
              (callerInfo env2 (w.heap l).flag calldepth2).1
              (callerInfo env2 (w.heap l).flag calldepth2).2 = some hdr2 ∧
            ((∃ e2, Output env2 w1 l calldepth2 s2 = .ret e2 w3) ∨
              Output env2 w1 l calldepth2 s2 = .exit 1 w3) ∧
            (w3.heap l).out.received = (w.heap l).out.received ++ [line] ++
              [if s2.length = 0 ∨ s2.getLast? ≠ some 10 then hdr2 ++ s2 ++ [10]
                else hdr2 ++ s2] ∧
            (w3.heap l).buf =
              (if s2.length = 0 ∨ s2.getLast? ≠ some 10 then hdr2 ++ s2 ++ [10]
                else hdr2 ++ s2)) := by
  obtain ⟨hdr, hh⟩ := formatHeader_isSome (w.heap l) [] env.now
    (callerInfo env (w.heap l).flag calldepth).1 (callerInfo env (w.heap l).flag calldepth).2
    henv.1 henv.2.1 (callerInfo_isInt env _ _ henv)
  have e1 : (w.store l { w.heap l with buf := b }).heap l = { w.heap l with buf := b } := by
    simp [World.store]
  have e2 := store_filePath w l { w.heap l with buf := b } rfl
  have hmu2 : ((w.store l { w.heap l with buf := b }).heap l).mu = false := by
    rw [e1]; exact hmu
  have hh2 : formatHeader ((w.store l { w.heap l with buf := b }).heap l) [] env.now
      (callerInfo env ((w.store l { w.heap l with buf := b }).heap l).flag calldepth).1
      (callerInfo env ((w.store l { w.heap l with buf := b }).heap l).flag calldepth).2
      = some hdr := by
    rw [e1]
    rw [formatHeader_fields_congr { w.heap l with buf := b } (w.heap l) _ _ _ _ rfl rfl]
    exact hh
  have second : ∀ w1 : World,
      w1.heap l = { w.heap l with
        mu := false,
        buf := (if s.length = 0 ∨ s.getLast? ≠ some 10 then hdr ++ s ++ [10] else hdr ++ s),
        out := { (w.heap l).out with received := (w.heap l).out.received ++
          [if s.length = 0 ∨ s.getLast? ≠ some 10 then hdr ++ s ++ [10] else hdr ++ s] } } →
      ∀ (env2 : Env) (calldepth2 : Int) (s2 : List Byte), env2.isInt →
        ∃ hdr2 w3,
          formatHeader (w.heap l) [] env2.now
            (callerInfo env2 (w.heap l).flag calldepth2).1
            (callerInfo env2 (w.heap l).flag calldepth2).2 = some hdr2 ∧
          ((∃ e2, Output env2 w1 l calldepth2 s2 = .ret e2 w3) ∨
            Output env2 w1 l calldepth2 s2 = .exit 1 w3) ∧
          (w3.heap l).out.received = (w.heap l).out.received ++
            [if s.length = 0 ∨ s.getLast? ≠ some 10 then hdr ++ s ++ [10] else hdr ++ s] ++
            [if s2.length = 0 ∨ s2.getLast? ≠ some 10 then hdr2 ++ s2 ++ [10]
              else hdr2 ++ s2] ∧
          (w3.heap l).buf =
            (if s2.length = 0 ∨ s2.getLast? ≠ some 10 then hdr2 ++ s2 ++ [10]
              else hdr2 ++ s2) := by
    intro w1 hw1 env2 calldepth2 s2 henv2
    obtain ⟨hdr2, hhdr2⟩ := formatHeader_isSome (w.heap l) [] env2.now
      (callerInfo env2 (w.heap l).flag calldepth2).1
      (callerInfo env2 (w.heap l).flag calldepth2).2
      henv2.1 henv2.2.1 (callerInfo_isInt env2 _ _ henv2)
    have hf1 : (w1.heap l).flag = (w.heap l).flag := by rw [hw1]
    have hp1 : (w1.heap l).prefix_ = (w.heap l).prefix_ := by rw [hw1]
    have hhw1 : formatHeader (w1.heap l) [] env2.now
        (callerInfo env2 (w1.heap l).flag calldepth2).1
        (callerInfo env2 (w1.heap l).flag calldepth2).2 = some hdr2 := by
      rw [hf1, formatHeader_fields_congr (w1.heap l) (w.heap l) _ _ _ _ hp1 hf1]
      exact hhdr2
    obtain ⟨w3, m, hout, hheap, _, _⟩ :=
      output_state env2 w1 l calldepth2 s2 hdr2 _ (by rw [hw1]) hhw1 rfl
    refine ⟨hdr2, w3, hhdr2, ?_, ?_, ?_⟩
    · rcases hout with ⟨h, _⟩ | ⟨h, _⟩
      · exact Or.inl ⟨_, h⟩
      · exact Or.inr h
    · rw [hheap, hw1]
    · rw [hheap]
  by_cases hp : (w.heap w.Logger).filePath = []
  · have h1 := Output_ret_eq env w l calldepth s hdr _ hmu hh rfl (Or.inl hp)
    have h2 := Output_ret_eq env (w.store l { w.heap l with buf := b }) l calldepth s
      hdr _ hmu2 hh2 rfl (Or.inl (by rw [e2]; exact hp))
    rw [e1] at h2
    refine ⟨hdr, _, _, _, hh, rfl, Or.inl ⟨_, h1, h2⟩, ?_, ?_, ?_, ?_, ?_⟩
    · simp
    · simp
    · simp
    · simp
    · intro e _
      exact second _ (by simp)
  · cases ho : w.fs.openErr (w.heap w.Logger).filePath with
    | none =>
      have h1 := Output_ret_eq env w l calldepth s hdr _ hmu hh rfl (Or.inr ho)
      have h2 := Output_ret_eq env (w.store l { w.heap l with buf := b }) l calldepth s
        hdr _ hmu2 hh2 rfl (Or.inr (by rw [e2]; exact ho))
      rw [e1] at h2
      refine ⟨hdr, _, _, _, hh, rfl, Or.inl ⟨_, h1, h2⟩, ?_, ?_, ?_, ?_, ?_⟩
      · simp
      · simp
      · simp
      · simp
      · intro e _
        exact second _ (by simp)
    | some e =>
      have h1 := Output_exit_eq env w l calldepth s hdr _ e hmu hh rfl hp ho
      have h2 := Output_exit_eq env (w.store l { w.heap l with buf := b }) l calldepth s
        hdr _ e hmu2 hh2 rfl (by rw [e2]; exact hp) (by rw [e2]; exact ho)
      rw [e1] at h2
      refine ⟨hdr, _, _, _, hh, rfl, Or.inr ⟨h1, h2⟩, ?_, ?_, ?_, ?_, ?_⟩
      · simp [World.store]
      · simp [World.store]
      · simp [World.store]
      · simp [World.store]
      · intro e3 h3
        rw [h1] at h3
        cases h3

/-- C18 witness: the sample logger with stale bytes in `buf` writes `hello`. -/
theorem C18_scratch_buffer_reset_witness :
    ∃ w2,
      ((∃ e, Output sampleEnv ((sampleWorld LstdFlags).store 1
            { (sampleWorld LstdFlags).heap 1 with buf := bytesOf "stale bytes" }) 1 2
            (bytesOf "hello") = .ret e w2) ∨
        Output sampleEnv ((sampleWorld LstdFlags).store 1
            { (sampleWorld LstdFlags).heap 1 with buf := bytesOf "stale bytes" }) 1 2
            (bytesOf "hello") = .exit 1 w2) ∧
      (w2.heap 1).out.received = [bytesOf "[X] 2024/01/02 03:04:05 hello\n"] ∧
      (w2.heap 1).buf = bytesOf "[X] 2024/01/02 03:04:05 hello\n" := by
  obtain ⟨hdr, line, w1, w2, hh, hline, hout, _, hrec, _, hbuf, _⟩ :=
    C18_scratch_buffer_reset sampleEnv (sampleWorld LstdFlags) 1 2 (bytesOf "hello")
      (bytesOf "stale bytes") (by decide)
      ⟨by decide, by decide, fun _ => (by decide : isInt 42)⟩
  have h0 : formatHeader ((sampleWorld LstdFlags).heap 1) [] sampleEnv.now
      (callerInfo sampleEnv ((sampleWorld LstdFlags).heap 1).flag 2).1
      (callerInfo sampleEnv ((sampleWorld LstdFlags).heap 1).flag 2).2
      = some (bytesOf "[X] 2024/01/02 03:04:05 ") := by decide
  rw [h0] at hh
  have hs : hdr = bytesOf "[X] 2024/01/02 03:04:05 " := (Option.some.inj hh).symm
  subst hs
  have hl : line = bytesOf "[X] 2024/01/02 03:04:05 hello\n" := by
    rw [hline]; decide
  subst hl
  refine ⟨w2, ?_, hrec, hbuf⟩
  rcases hout with ⟨e, _, h⟩ | ⟨_, h⟩
  · exact Or.inl ⟨e, h⟩
  · exact Or.inr h

set_option maxRecDepth 8192 in
/-- C19 (as stated it fails): `i = 10^18` has 19 digits and `wid = -2^63 + 17` is below
20; the eighteenth `wid--` wraps around to `2^63 - 1`, the loop runs on until `bp` is
`-1`, and the index `b[bp]` fails. One more unit of width, `-2^63 + 18`, suffices. -/
theorem C19_counterexample :
    (0 : Int) ≤ 1000000000000000000 ∧ (1000000000000000000 : Int) < 2 ^ 63 ∧
    (-9223372036854775791 : Int) ≤ 20 ∧
    itoa [] 1000000000000000000 (-9223372036854775791) = none ∧
    itoa [] 1000000000000000000 (-9223372036854775790) = some (bytesOf "1000000000000000000") := by
  decide

/-- C19 (amended): `itoa` never indexes its 20-byte scratch array out of range when
`0 ≤ i < 2^63` and `-2^63 + digits(i) - 1 ≤ wid ≤ 20`: the loop ends with the write
position `bp` within `0..19` and `itoa` returns; whereas for every `wid` from 21 on, and
any `i`, the loop drives `bp` below 0 and an index of the array fails. -/
theorem C19_itoa_index_range (buf : List Byte) (i wid : Int) :
    (0 ≤ i → i < 2 ^ 63 → -2 ^ 63 + ((decimalDigits i.toNat).length : Int) - 1 ≤ wid →
      wid ≤ 20 →
      (∃ b bp i1, itoaLoop 21 (List.replicate 20 0) 19 i wid = some (b, bp, i1) ∧
        0 ≤ bp ∧ bp ≤ 19) ∧
      ∃ out, itoa buf i wid = some out) ∧
    (21 ≤ wid → wid < 2 ^ 63 → itoa buf i wid = none) := by
  refine ⟨?_, itoa_wide_panics buf i wid⟩
  intro h0 h1 hlo hw
  have hi : ((i.toNat : Nat) : Int) = i := Int.toNat_of_nonneg h0
  have hlen := decimalDigits_length_int i.toNat (by omega)
  obtain ⟨b1, k1, d, hrun, hk1, _, _, _⟩ :=
    itoaLoop_spec 19 21 (List.replicate 20 0) i.toNat wid (by decide) (by simp) (by decide)
      (by rw [padDecimal_length]; omega) hlo (by omega)
  have h19 : ((19 : Nat) : Int) = 19 := rfl
  rw [h19, hi] at hrun
  refine ⟨⟨b1, k1, d, hrun, by omega, by omega⟩, ?_⟩
  have hmain := itoa_eq buf i.toNat wid (by rw [padDecimal_length]; omega) hlo (by omega)
  rw [hi] at hmain
  exact ⟨_, hmain⟩

/-- C19 witness: `i = 2024` with width 20 returns, with width 21 it fails. -/
theorem C19_itoa_index_range_witness :
    (∃ out, itoa [] 2024 20 = some out) ∧ itoa [] 2024 21 = none :=
  ⟨((C19_itoa_index_range [] 2024 20).1 (by decide) (by decide)
      (by have := decimalDigits_length_int (2024 : Int).toNat (by decide); omega)
      (by decide)).2,
    (C19_itoa_index_range [] 2024 21).2 (by decide) (by decide)⟩

/-- C20: the method `(*Logging).Info` never writes to the sink. It blocks in its own
`Lock` when the mutex is held; otherwise it acquires the mutex and calls `Output`, which
blocks in `Lock` on the mutex `Info` holds. For every logger and argument list the call
ends blocked with the mutex held, `Output` on that logger is blocked from the state it
leaves, and no sink and no file has changed. -/
theorem C20_method_Info_blocks {α : Type} (Sprint : List α → List Byte) (env : Env)
    (w : World) (l : Ptr) (v : List α) :
    ∃ w1, Logging.Info Sprint env w l v = .blocked w1 ∧
      (w1.heap l).mu = true ∧
      (∀ (env2 : Env) (calldepth : Int) (s : List Byte),
        Output env2 w1 l calldepth s = .blocked w1) ∧
      (∀ p, (w1.heap p).out = (w.heap p).out) ∧ w1.fs = w.fs := by
  by_cases hmu : (w.heap l).mu = true
  · refine ⟨w, ?_, hmu, ?_, fun _ => rfl, rfl⟩
    · unfold Logging.Info
      rw [if_pos hmu]
    · intro env2 calldepth s
      unfold Output
      simp only [hmu, if_true]
  · have hheld : (((w.store l { w.heap l with mu := true }).store l
        { (w.store l { w.heap l with mu := true }).heap l with
          prefix_ := bytesOf "[INFOaaaaaaa]" }).heap l).mu = true := by
      simp [World.store]
    have hblock : ∀ (env2 : Env) (calldepth : Int) (s : List Byte),
        Output env2 ((w.store l { w.heap l with mu := true }).store l
          { (w.store l { w.heap l with mu := true }).heap l with
            prefix_ := bytesOf "[INFOaaaaaaa]" }) l calldepth s
        = .blocked ((w.store l { w.heap l with mu := true }).store l
          { (w.store l { w.heap l with mu := true }).heap l with
            prefix_ := bytesOf "[INFOaaaaaaa]" }) := by
      intro env2 calldepth s
      unfold Output
      simp only [hheld, if_true]
    refine ⟨_, ?_, hheld, hblock, ?_, rfl⟩
    · unfold Logging.Info
      rw [if_neg hmu]
      simp only [hblock]
    · intro p
      by_cases hp : p = l
      · simp [World.store, hp]
      · simp [World.store, hp]

end Nlog
